import Mathlib

/-!
# Administrative-job orchestration of the meta service

A shallow embedding of `src/meta/processors/jobMan/MetaJobExecutor.cpp` and of
the code translation table of `src/storage/CommonUtils.cpp`, followed by the
properties established about them.

Conventions of the embedding.

* `std::string` buffers (store keys and values) are lists of bytes, each byte a
  natural number read modulo 256.
* `ErrorOr<cpp2::ErrorCode, T>` is `Except ErrorCode T`.
* The replicated store, the remote admin client and the per-job-kind
  `executeInternal` are collaborators: they are fields of the executor record
  and act on an explicit world state `σ`.
* `HostAddr` comes from the common library; it is a type parameter carrying the
  linear order given by its `operator<` and `operator==`.
* Every store write and every remote invocation a run issues is recorded in
  the run's result, in issue order.
-/

namespace Nebula

/-! ## Value types -/

abbrev GraphSpaceID := Int
abbrev PartitionID := Int
abbrev JobID := Int
abbrev TermID := Int

/-- A `std::string` used as a raw buffer: its bytes, in order. -/
abbrev Bytes := List Nat

/-- One key/value pair of the store (`kvstore::KV`). -/
abbrev KV := Bytes × Bytes

/-- The resolved host set: `std::vector<std::pair<HostAddr, std::vector<PartitionID>>>`. -/
abbrev Hosts (HostAddr : Type) := List (HostAddr × List PartitionID)

/-- Result codes of the store (`kvstore::ResultCode`): the enumerators the source names,
and `OTHER` for any enumerator the source does not name. -/
inductive ResultCode where
  | SUCCEEDED
  | ERR_LEADER_CHANGED
  | ERR_SPACE_NOT_FOUND
  | ERR_PART_NOT_FOUND
  | ERR_KEY_NOT_FOUND
  | ERR_CONSENSUS_ERROR
  | ERR_CHECKPOINT_ERROR
  | ERR_WRITE_BLOCK_ERROR
  | ERR_PARTIAL_RESULT
  | ERR_INVALID_FIELD_VALUE
  | ERR_RESULT_FILTERED
  | ERR_EDGE_NOT_FOUND
  | ERR_TAG_NOT_FOUND
  | ERR_ATOMIC_OP_FAILED
  | ERR_TAG_PROP_NOT_FOUND
  | ERR_EDGE_PROP_NOT_FOUND
  | ERR_RESULT_OVERFLOW
  | ERR_INVALID_DATA
  | ERR_BUILD_INDEX_FAILED
  | ERR_INVALID_OPERATION
  | ERR_DATA_CONFLICT_ERROR
  | ERR_UNKNOWN
  | OTHER (raw : Int)
  deriving DecidableEq, Repr

/-- The external error-code vocabulary (`cpp2::ErrorCode`). -/
inductive ErrorCode where
  | SUCCEEDED
  | E_LEADER_CHANGED
  | E_SPACE_NOT_FOUND
  | E_PART_NOT_FOUND
  | E_KEY_NOT_FOUND
  | E_CONSENSUS_ERROR
  | E_FAILED_TO_CHECKPOINT
  | E_CHECKPOINT_BLOCKED
  | E_PARTIAL_RESULT
  | E_INVALID_FIELD_VALUE
  | E_FILTER_OUT
  | E_EDGE_NOT_FOUND
  | E_TAG_NOT_FOUND
  | E_ATOMIC_OP_FAILED
  | E_TAG_PROP_NOT_FOUND
  | E_EDGE_PROP_NOT_FOUND
  | E_OUT_OF_RANGE
  | E_INVALID_DATA
  | E_REBUILD_INDEX_FAILED
  | E_INVALID_OPERATION
  | E_DATA_CONFLICT_ERROR
  | E_RPC_FAILURE
  | E_UNKNOWN
  deriving DecidableEq, Repr

/-- Modelled from the spec: the id of the meta service's own space, `kDefaultSpaceId`
(declared in meta/processors/Common.h): space id 0. -/
def kDefaultSpaceId : GraphSpaceID := 0

/-- Modelled from the spec: the id of the meta service's own partition, `kDefaultPartId`
(declared in meta/processors/Common.h): part id 0. -/
def kDefaultPartId : PartitionID := 0

/-! ## Code translation (`CommonUtils::to`) -/

namespace CommonUtils

/-- The switch of `CommonUtils::to(kvstore::ResultCode)` (`to` is a reserved word here,
hence the longer name). -/
def toErrorCode : ResultCode → ErrorCode
  | .SUCCEEDED => .SUCCEEDED
  | .ERR_LEADER_CHANGED => .E_LEADER_CHANGED
  | .ERR_SPACE_NOT_FOUND => .E_SPACE_NOT_FOUND
  | .ERR_PART_NOT_FOUND => .E_PART_NOT_FOUND
  | .ERR_KEY_NOT_FOUND => .E_KEY_NOT_FOUND
  | .ERR_CONSENSUS_ERROR => .E_CONSENSUS_ERROR
  | .ERR_CHECKPOINT_ERROR => .E_FAILED_TO_CHECKPOINT
  | .ERR_WRITE_BLOCK_ERROR => .E_CHECKPOINT_BLOCKED
  | .ERR_PARTIAL_RESULT => .E_PARTIAL_RESULT
  | .ERR_INVALID_FIELD_VALUE => .E_INVALID_FIELD_VALUE
  | .ERR_RESULT_FILTERED => .E_FILTER_OUT
  | .ERR_EDGE_NOT_FOUND => .E_EDGE_NOT_FOUND
  | .ERR_TAG_NOT_FOUND => .E_TAG_NOT_FOUND
  | .ERR_ATOMIC_OP_FAILED => .E_ATOMIC_OP_FAILED
  | .ERR_TAG_PROP_NOT_FOUND => .E_TAG_PROP_NOT_FOUND
  | .ERR_EDGE_PROP_NOT_FOUND => .E_EDGE_PROP_NOT_FOUND
  | .ERR_RESULT_OVERFLOW => .E_OUT_OF_RANGE
  | .ERR_INVALID_DATA => .E_INVALID_DATA
  | .ERR_BUILD_INDEX_FAILED => .E_REBUILD_INDEX_FAILED
  | .ERR_INVALID_OPERATION => .E_INVALID_OPERATION
  | .ERR_DATA_CONFLICT_ERROR => .E_DATA_CONFLICT_ERROR
  | _ => .E_UNKNOWN

end CommonUtils

namespace MetaCommon

/-- Modelled from the spec: `MetaCommon::to`, the translator the job executor calls, is
declared in meta/common/MetaCommon.h. The spec describes a single translator from store
result codes to external codes, whose table is the one `CommonUtils::to` implements. -/
def toErrorCode : ResultCode → ErrorCode := CommonUtils.toErrorCode

end MetaCommon

/-! ## Collaborators -/

/-- The key builders and value parsers of `MetaServiceUtils` that the executor uses.
Their encodings are owned by the store layer and are parameters here. -/
structure MetaServiceUtils (HostAddr : Type) where
  indexSpaceKey : String → Bytes
  partPrefix : GraphSpaceID → Bytes
  leaderPrefix : GraphSpaceID → Bytes
  parsePartVal : Bytes → List HostAddr
  parseLeaderKeyV3 : Bytes → GraphSpaceID × PartitionID
  parseLeaderValV3 : Bytes → HostAddr × TermID × ErrorCode

/-- The store operations the executor consumes, over a world state `σ`.
`get` yields the result code and the value buffer; `prefixScan` (the store's prefix
scan) yields the result code and the records the iterator walks, in iteration order;
`asyncMultiPut` yields the code its completion callback carries and the next state. -/
structure KVStore (σ : Type) where
  get : σ → GraphSpaceID → PartitionID → Bytes → ResultCode × Bytes
  prefixScan : σ → GraphSpaceID → PartitionID → Bytes → ResultCode × List KV
  asyncMultiPut : σ → GraphSpaceID → PartitionID → List KV → ResultCode × σ

/-- The state of `Status` that the executor inspects: `ok()` or an error with its text. -/
inductive Status where
  | OK
  | Error (msg : String)
  deriving DecidableEq, Repr

/-- `Status::ok()`. -/
def Status.ok : Status → Bool
  | .OK => true
  | .Error _ => false

/-- The terminal state of one future (`folly::Try<Status>`): a value or an exception. -/
inductive Try where
  | value (st : Status)
  | exception (what : String)
  deriving DecidableEq, Repr

/-- `t.hasException()`. -/
def Try.hasException : Try → Bool
  | .value _ => false
  | .exception _ => true

/-- A task record (`TaskDescription(jobId, taskId, host)`). -/
structure TaskDescription (HostAddr : Type) where
  iJob : JobID
  iTask : Nat
  dest : HostAddr

/-- The executor object with its collaborators: the members `jobId_`, `toLeader_`,
`space_`, `kvstore_`, the virtual `executeInternal`, and the library functions
it calls that are declared outside this file of the source. -/
structure MetaJobExecutor (σ : Type) (HostAddr : Type) where
  jobId : JobID
  toLeader : Bool
  space : GraphSpaceID
  kvstore : KVStore σ
  utils : MetaServiceUtils HostAddr
  toCode : ResultCode → ErrorCode
  taskKey : TaskDescription HostAddr → Bytes
  taskVal : TaskDescription HostAddr → Bytes
  getAdminAddrFromStoreAddr : HostAddr → HostAddr
  executeInternal : σ → HostAddr → List PartitionID → Try × σ

/-! ## `getSpaceIdFromName` -/

/-- The read `*reinterpret_cast<const GraphSpaceID*>(val.c_str())`: the first four bytes
of the buffer as a little-endian 32-bit integer in two's complement. A byte past the last
one reads as 0 here; the source leaves such a read undefined beyond the terminator, so
the result is meaningful only for buffers of at least four bytes. -/
def readSpaceId (val : Bytes) : GraphSpaceID :=
  let u : Nat := val.getD 0 0 % 256 + (val.getD 1 0 % 256) * 2 ^ 8
    + (val.getD 2 0 % 256) * 2 ^ 16 + (val.getD 3 0 % 256) * 2 ^ 24
  if u < 2 ^ 31 then (u : Int) else (u : Int) - 2 ^ 32

namespace MetaJobExecutor

variable {σ HostAddr : Type}

/-- `MetaJobExecutor::getSpaceIdFromName`. -/
def getSpaceIdFromName (X : MetaJobExecutor σ HostAddr) (s : σ) (spaceName : String) :
    Except ErrorCode GraphSpaceID :=
  let indexKey := X.utils.indexSpaceKey spaceName
  let r := X.kvstore.get s kDefaultSpaceId kDefaultPartId indexKey
  if r.1 ≠ ResultCode.SUCCEEDED then
    .error (X.toCode r.1)
  else
    .ok (readSpaceId r.2)

end MetaJobExecutor

/-! ## `getTargetHost` -/

/-- `operator<` of `std::vector<PartitionID>`: lexicographical comparison. -/
def vecLt : List PartitionID → List PartitionID → Bool
  | _, [] => false
  | [], _ :: _ => true
  | a :: as, b :: bs => if a < b then true else if b < a then false else vecLt as bs

/-- `operator<` of `std::pair<HostAddr, std::vector<PartitionID>>`. -/
def pairLt {HostAddr : Type} [LinearOrder HostAddr]
    (a b : HostAddr × List PartitionID) : Bool :=
  decide (a.1 < b.1) || (!decide (b.1 < a.1) && vecLt a.2 b.2)

/-- `std::sort(hosts.begin(), hosts.end())`: the ascending arrangement of the vector with
respect to `operator<` of its elements, computed by insertion (`a` goes before `b`
when `b < a` is false). -/
def stdSort {HostAddr : Type} [LinearOrder HostAddr] (hosts : Hosts HostAddr) :
    Hosts HostAddr :=
  List.insertionSort (fun a b => pairLt b a = false) hosts

/-- The scan of `std::unique` with `a` the last element kept so far. -/
def uniqueFrom {α : Type} [DecidableEq α] (a : α) : List α → List α
  | [] => [a]
  | b :: l => if a = b then uniqueFrom a l else a :: uniqueFrom b l

/-- `std::unique` followed by `erase`: of every run of consecutive equal elements only
the first is kept. -/
def stdUnique {α : Type} [DecidableEq α] : List α → List α
  | [] => []
  | a :: l => uniqueFrom a l

namespace MetaJobExecutor

variable {σ HostAddr : Type} [LinearOrder HostAddr]

/-- The `while (iter->valid())` loop of `getTargetHost`: every host of every record,
paired with an empty partition vector, in scan order. -/
def collectTargets (U : MetaServiceUtils HostAddr) (records : List KV) : Hosts HostAddr :=
  records.flatMap (fun kv => (U.parsePartVal kv.2).map (fun target => (target, [])))

/-- `MetaJobExecutor::getTargetHost`. -/
def getTargetHost (X : MetaJobExecutor σ HostAddr) (s : σ) (spaceId : GraphSpaceID) :
    Except ErrorCode (Hosts HostAddr) :=
  let partPrefix := X.utils.partPrefix spaceId
  let r := X.kvstore.prefixScan s kDefaultSpaceId kDefaultPartId partPrefix
  if r.1 ≠ ResultCode.SUCCEEDED then
    .error (X.toCode r.1)
  else
    let hosts := collectTargets X.utils r.2
    .ok (stdUnique (stdSort hosts))

/-! ## `getLeaderHost` -/

/-- The `find_if` and the two `emplace_back` branches of the loop body of
`getLeaderHost`: the partition is appended to the vector of the first entry whose host
is `host`, or a new entry is appended when there is none. -/
def addLeaderPart (host : HostAddr) (partId : PartitionID) :
    Hosts HostAddr → Hosts HostAddr
  | [] => [(host, [partId])]
  | item :: rest =>
    if item.1 = host then (item.1, item.2 ++ [partId]) :: rest
    else item :: addLeaderPart host partId rest

/-- One iteration of the `for (; leaderIter->valid(); leaderIter->next())` loop. -/
def leaderStep (U : MetaServiceUtils HostAddr) (hosts : Hosts HostAddr) (kv : KV) :
    Hosts HostAddr :=
  let spaceAndPart := U.parseLeaderKeyV3 kv.1
  let partId := spaceAndPart.2
  let parsed := U.parseLeaderValV3 kv.2
  let host := parsed.1
  let code := parsed.2.2
  if code ≠ ErrorCode.SUCCEEDED then hosts
  else addLeaderPart host partId hosts

/-- `MetaJobExecutor::getLeaderHost`. -/
def getLeaderHost (X : MetaJobExecutor σ HostAddr) (s : σ) (space : GraphSpaceID) :
    Except ErrorCode (Hosts HostAddr) :=
  let hostPrefix := X.utils.leaderPrefix space
  let r := X.kvstore.prefixScan s kDefaultSpaceId kDefaultPartId hostPrefix
  if r.1 ≠ ResultCode.SUCCEEDED then
    .error (X.toCode r.1)
  else
    .ok (r.2.foldl (leaderStep X.utils) [])

end MetaJobExecutor

/-! ## `execute` -/

/-- One `asyncMultiPut` call as the store receives it, with the code its callback
delivered. -/
structure PutRecord where
  spaceId : GraphSpaceID
  partId : PartitionID
  data : List KV
  rc : ResultCode
  deriving DecidableEq, Repr

/-- One `executeInternal` call: the address and partition vector passed, and the
terminal state of the future it returned. -/
structure Invocation (HostAddr : Type) where
  address : HostAddr
  parts : List PartitionID
  outcome : Try

/-- What a run of `execute` produces: the returned code, the store writes issued, the
remote invocations made (both in issue order), and the world it leaves. -/
structure ExecResult (σ : Type) (HostAddr : Type) where
  code : ErrorCode
  puts : List PutRecord
  calls : List (Invocation HostAddr)
  world : σ

namespace MetaJobExecutor

variable {σ HostAddr : Type} [LinearOrder HostAddr]

/-- The key/value vector written for the entry at counter value `i`:
`TaskDescription task(jobId_, i, addresses[i].first)` and
`data{{task.taskKey(), task.taskVal()}}`. The counter is a 32-bit unsigned. -/
def taskData (X : MetaJobExecutor σ HostAddr) (i : Nat) (host : HostAddr) : List KV :=
  let task : TaskDescription HostAddr := { iJob := X.jobId, iTask := i % 2 ^ 32, dest := host }
  [(X.taskKey task, X.taskVal task)]

/-- The loop `for (auto i = 0U; i != addresses.size(); ++i)` from counter value `i` over
the entries not yet visited: one awaited `asyncMultiPut` per entry, stopping at the
first code that is not `SUCCEEDED`. Yields the last code seen (`SUCCEEDED` when the loop
runs to its end), the writes issued and the resulting world. The loop test is rendered
by exhaustion of the vector, which agrees with the 32-bit counter for vectors of fewer
than 2^32 entries. -/
def writeTasks (X : MetaJobExecutor σ HostAddr) :
    Nat → Hosts HostAddr → σ → ResultCode × List PutRecord × σ
  | _, [], s => (ResultCode.SUCCEEDED, [], s)
  | i, address :: rest, s =>
    let data := taskData X i address.1
    let r := X.kvstore.asyncMultiPut s kDefaultSpaceId kDefaultPartId data
    let put : PutRecord :=
      { spaceId := kDefaultSpaceId, partId := kDefaultPartId, data := data, rc := r.1 }
    if r.1 ≠ ResultCode.SUCCEEDED then
      (r.1, [put], r.2)
    else
      let w := writeTasks X (i + 1) rest r.2
      (w.1, put :: w.2.1, w.2.2)

/-- The loop `for (auto& address : addresses)` that fills `futs`, with the terminal
state each future reaches. -/
def dispatch (X : MetaJobExecutor σ HostAddr) :
    Hosts HostAddr → σ → List (Invocation HostAddr) × σ
  | [], s => ([], s)
  | address :: rest, s =>
    let h := X.getAdminAddrFromStoreAddr address.1
    let r := X.executeInternal s h address.2
    let d := dispatch X rest r.2
    ({ address := h, parts := address.2, outcome := r.1 } :: d.1, d.2)

/-- The body of the loop `for (auto& t : tries)`. -/
def aggregateStep (rc : ErrorCode) (t : Try) : ErrorCode :=
  match t with
  | .exception _ => ErrorCode.E_RPC_FAILURE
  | .value st => if !st.ok then ErrorCode.E_RPC_FAILURE else rc

/-- The loop over `folly::collectAll(std::move(futs)).get()`, from `rc = SUCCEEDED`. -/
def aggregate (tries : List Try) : ErrorCode :=
  tries.foldl aggregateStep ErrorCode.SUCCEEDED

/-- The selection `if (toLeader_) getLeaderHost(space_) else getTargetHost(space_)`. -/
def resolveHosts (X : MetaJobExecutor σ HostAddr) (s : σ) :
    Except ErrorCode (Hosts HostAddr) :=
  if X.toLeader then getLeaderHost X s X.space else getTargetHost X s X.space

/-- `MetaJobExecutor::execute`. -/
def execute (X : MetaJobExecutor σ HostAddr) (s : σ) : ExecResult σ HostAddr :=
  match resolveHosts X s with
  | .error e => { code := e, puts := [], calls := [], world := s }
  | .ok addresses =>
    let w := writeTasks X 0 addresses s
    if w.1 ≠ ResultCode.SUCCEEDED then
      { code := X.toCode w.1, puts := w.2.1, calls := [], world := w.2.2 }
    else
      let d := dispatch X addresses w.2.2
      { code := aggregate (d.1.map (fun c => c.outcome)), puts := w.2.1, calls := d.1,
        world := d.2 }

end MetaJobExecutor

/-! ## `MetaJobExecutorFactory::createMetaJobExecutor` -/

/-- The administrative commands (`cpp2::AdminCmd`): the enumerators the factory names, and
`OTHER` for any enumerator it does not name. -/
inductive AdminCmd where
  | COMPACT
  | FLUSH
  | REBUILD_TAG_INDEX
  | REBUILD_EDGE_INDEX
  | STATS
  | OTHER (raw : Int)
  deriving DecidableEq, Repr

/-- A submitted job (`JobDescription`) as the factory reads it: `getJobId()`, `getCmd()`,
`getParas()`. -/
structure JobDescription where
  jobId : JobID
  cmd : AdminCmd
  paras : List String
  deriving DecidableEq, Repr

/-- The concrete executor classes the factory instantiates. -/
inductive ExecutorClass where
  | CompactJobExecutor
  | FlushJobExecutor
  | RebuildTagJobExecutor
  | RebuildEdgeJobExecutor
  | StatisJobExecutor
  deriving DecidableEq, Repr

/-- An executor object as the factory constructs it: its class and the four constructor
arguments `(jobId, store, client, paras)`. -/
structure ExecutorObject (Store Client : Type) where
  cls : ExecutorClass
  jobId : JobID
  kvstore : Store
  adminClient : Client
  paras : List String

namespace MetaJobExecutorFactory

/-- `MetaJobExecutorFactory::createMetaJobExecutor`; the null `unique_ptr` is `none`. -/
def createMetaJobExecutor {Store Client : Type} (jd : JobDescription) (store : Store)
    (client : Client) : Option (ExecutorObject Store Client) :=
  match jd.cmd with
  | .COMPACT =>
    some { cls := .CompactJobExecutor, jobId := jd.jobId, kvstore := store,
           adminClient := client, paras := jd.paras }
  | .FLUSH =>
    some { cls := .FlushJobExecutor, jobId := jd.jobId, kvstore := store,
           adminClient := client, paras := jd.paras }
  | .REBUILD_TAG_INDEX =>
    some { cls := .RebuildTagJobExecutor, jobId := jd.jobId, kvstore := store,
           adminClient := client, paras := jd.paras }
  | .REBUILD_EDGE_INDEX =>
    some { cls := .RebuildEdgeJobExecutor, jobId := jd.jobId, kvstore := store,
           adminClient := client, paras := jd.paras }
  | .STATS =>
    some { cls := .StatisJobExecutor, jobId := jd.jobId, kvstore := store,
           adminClient := client, paras := jd.paras }
  | _ => none

end MetaJobExecutorFactory

/-! ## `storage/CommonUtils.cpp`: reverse translation and TTL -/

/-- The field types (`meta::cpp2::PropertyType`): the two the TTL check names, and `OTHER`
for every other enumerator. -/
inductive PropertyType where
  | TIMESTAMP
  | INT64
  | OTHER (raw : Int)
  deriving DecidableEq, Repr

/-- The alternatives of `Value` the TTL check distinguishes: an integer, the null value,
and `other` for every alternative that is neither. -/
inductive Value where
  | null
  | int (i : Int)
  | other (tag : Nat)
  deriving DecidableEq, Repr

/-- `Value::isInt()`. -/
def Value.isInt : Value → Bool
  | .int _ => true
  | _ => false

/-- `Value::getInt()`; it is only called on integer values. -/
def Value.getInt : Value → Int
  | .int i => i
  | _ => 0

/-- A 64-bit signed result: the value of an `int64_t` expression after wrap-around. -/
def wrapInt64 (x : Int) : Int := (x + 2 ^ 63) % 2 ^ 64 - 2 ^ 63

/-- The schema properties read by `ttlProps` (`get_ttl_duration()`, `get_ttl_col()`), each
possibly unset. -/
structure SchemaProp where
  ttl_duration : Option Int
  ttl_col : Option String
  deriving DecidableEq, Repr

/-- The schema handle as the TTL helpers use it: `getFieldType` of the interface and
`getProp` of `NebulaSchemaProvider`, to which the handle is cast. -/
structure NebulaSchemaProvider where
  getFieldType : String → PropertyType
  getProp : SchemaProp

/-- The row reader as the TTL helpers use it. -/
structure RowReader where
  getValueByName : String → Value

namespace CommonUtils

/-- The switch of `CommonUtils::to(cpp2::ErrorCode)`. -/
def toResultCode : ErrorCode → ResultCode
  | .SUCCEEDED => .SUCCEEDED
  | .E_LEADER_CHANGED => .ERR_LEADER_CHANGED
  | _ => .ERR_UNKNOWN

/-- `CommonUtils::checkDataExpiredForTTL(schema, v, ttlCol, ttlDuration)`, with the value
`now` of `time::WallClock::fastNowInSec()` as an input. The sum `v.getInt() + ttlDuration`
is a 64-bit signed addition. -/
def checkDataExpiredForTTL (schema : NebulaSchemaProvider) (now : Int) (v : Value)
    (ttlCol : String) (ttlDuration : Int) : Bool :=
  let ftype := schema.getFieldType ttlCol
  if ftype ≠ PropertyType.TIMESTAMP ∧ ftype ≠ PropertyType.INT64 then
    false
  else if v.isInt && decide (now > wrapInt64 (v.getInt + ttlDuration)) then
    true
  else
    false

/-- `CommonUtils::checkDataExpiredForTTL(schema, reader, ttlCol, ttlDuration)`. -/
def checkDataExpiredForTTLOfReader (schema : NebulaSchemaProvider) (now : Int)
    (reader : RowReader) (ttlCol : String) (ttlDuration : Int) : Bool :=
  let v := reader.getValueByName ttlCol
  checkDataExpiredForTTL schema now v ttlCol ttlDuration

/-- `CommonUtils::ttlProps`. -/
def ttlProps (schema : NebulaSchemaProvider) : Bool × (Int × String) :=
  let sp := schema.getProp
  let duration : Int :=
    match sp.ttl_duration with
    | some d => d
    | none => 0
  let col : String :=
    match sp.ttl_col with
    | some c => c
    | none => ""
  (!(decide (duration ≤ 0) || col.isEmpty), (duration, col))

/-- `CommonUtils::ttlValue`; `Status::Error()` is the error status without a text. -/
def ttlValue (schema : NebulaSchemaProvider) (reader : RowReader) : Except Status Value :=
  let ttlProp := ttlProps schema
  if !ttlProp.1 then
    .error (Status.Error "")
  else
    .ok (reader.getValueByName ttlProp.2.2)

end CommonUtils

/-! ## Vocabulary of the statements -/

section Vocabulary

variable {σ HostAddr : Type}

/-- A host paired with the empty partition vector, as `getTargetHost` builds it. -/
def bare (h : HostAddr) : HostAddr × List PartitionID := (h, [])

/-- Every host named by a scanned partition record, in scan order. -/
def scannedHosts (U : MetaServiceUtils HostAddr) (records : List KV) : List HostAddr :=
  records.flatMap (fun kv => U.parsePartVal kv.2)

/-- The prefix scan `getTargetHost` issues for a space: its code and its records. -/
def partScan (X : MetaJobExecutor σ HostAddr) (s : σ) (spaceId : GraphSpaceID) :
    ResultCode × List KV :=
  X.kvstore.prefixScan s kDefaultSpaceId kDefaultPartId (X.utils.partPrefix spaceId)

/-- The prefix scan `getLeaderHost` issues for a space: its code and its records. -/
def leaderScan (X : MetaJobExecutor σ HostAddr) (s : σ) (space : GraphSpaceID) :
    ResultCode × List KV :=
  X.kvstore.prefixScan s kDefaultSpaceId kDefaultPartId (X.utils.leaderPrefix space)

/-- The leader a scanned leader record decodes to. -/
def leaderOf (U : MetaServiceUtils HostAddr) (kv : KV) : HostAddr := (U.parseLeaderValV3 kv.2).1

/-- The decode status of a scanned leader record. -/
def leaderCode (U : MetaServiceUtils HostAddr) (kv : KV) : ErrorCode :=
  (U.parseLeaderValV3 kv.2).2.2

/-- The partition id a scanned leader record is keyed by. -/
def leaderPart (U : MetaServiceUtils HostAddr) (kv : KV) : PartitionID :=
  (U.parseLeaderKeyV3 kv.1).2

/-- The (leader, partition) pairs of the records that decode with `SUCCEEDED`, in scan
order. -/
def ledParts (U : MetaServiceUtils HostAddr) (records : List KV) :
    List (HostAddr × PartitionID) :=
  (records.filter (fun kv => leaderCode U kv = ErrorCode.SUCCEEDED)).map
    (fun kv => (leaderOf U kv, leaderPart U kv))

/-- The partitions paired with host `h` in a list of (leader, partition) pairs. -/
def partsLedBy [DecidableEq HostAddr] (h : HostAddr) (led : List (HostAddr × PartitionID)) :
    List PartitionID :=
  (led.filter (fun p => p.1 = h)).map Prod.snd

/-- Each element of a list once, in the order of first occurrence. -/
def firstSeen {α : Type} [DecidableEq α] : List α → List α
  | [] => []
  | a :: l => a :: (firstSeen l).filter (fun b => b ≠ a)

/-- The future completed without an exception and with an ok status. -/
def Try.completedOk : Try → Bool
  | .value st => st.ok
  | .exception _ => false

/-- The write the k-th resolved host is due: one key/value pair built from
`TaskDescription(jobId, k, host)`, sent to space 0, part 0, here with the reply `rc`. -/
def taskPut (X : MetaJobExecutor σ HostAddr) (k : Nat) (host : HostAddr) (rc : ResultCode) :
    PutRecord :=
  { spaceId := 0, partId := 0,
    data := [(X.taskKey { iJob := X.jobId, iTask := k, dest := host },
              X.taskVal { iJob := X.jobId, iTask := k, dest := host })],
    rc := rc }

/-- The four bytes that hold a 32-bit space id in memory, lowest byte first. -/
def spaceIdBytes (id : GraphSpaceID) : Bytes :=
  let u : Nat := (id % 2 ^ 32).toNat
  [u % 256, u / 2 ^ 8 % 256, u / 2 ^ 16 % 256, u / 2 ^ 24 % 256]

/-- The 21 store codes the table of `CommonUtils::to(kvstore::ResultCode)` names. -/
def mappedResultCodes : List ResultCode :=
  [.SUCCEEDED, .ERR_LEADER_CHANGED, .ERR_SPACE_NOT_FOUND, .ERR_PART_NOT_FOUND,
   .ERR_KEY_NOT_FOUND, .ERR_CONSENSUS_ERROR, .ERR_CHECKPOINT_ERROR, .ERR_WRITE_BLOCK_ERROR,
   .ERR_PARTIAL_RESULT, .ERR_INVALID_FIELD_VALUE, .ERR_RESULT_FILTERED, .ERR_EDGE_NOT_FOUND,
   .ERR_TAG_NOT_FOUND, .ERR_ATOMIC_OP_FAILED, .ERR_TAG_PROP_NOT_FOUND,
   .ERR_EDGE_PROP_NOT_FOUND, .ERR_RESULT_OVERFLOW, .ERR_INVALID_DATA,
   .ERR_BUILD_INDEX_FAILED, .ERR_INVALID_OPERATION, .ERR_DATA_CONFLICT_ERROR]

/-- The key/value vector of the task record with task id `k` for host `host`: the single
pair built from `TaskDescription(jobId, k, host)`. -/
def taskBatch (X : MetaJobExecutor σ HostAddr) (k : Nat) (host : HostAddr) : List KV :=
  [(X.taskKey { iJob := X.jobId, iTask := k, dest := host },
    X.taskVal { iJob := X.jobId, iTask := k, dest := host })]

/-- The store receiving the given key/value vectors one after another, each as one
`asyncMultiPut` to space 0, part 0, starting in world `w`: the codes it replies, in order,
and the world it is left in. -/
def issuePuts (X : MetaJobExecutor σ HostAddr) : σ → List (List KV) → List ResultCode × σ
  | w, [] => ([], w)
  | w, data :: rest =>
    ((X.kvstore.asyncMultiPut w 0 0 data).1 ::
        (issuePuts X (X.kvstore.asyncMultiPut w 0 0 data).2 rest).1,
      (issuePuts X (X.kvstore.asyncMultiPut w 0 0 data).2 rest).2)

/-- The remote side receiving `executeInternal` with the given (address, partitions)
arguments one after another, starting in world `w`: the terminal states of the calls, in
order, and the world it is left in. -/
def issueCalls (X : MetaJobExecutor σ HostAddr) :
    σ → List (HostAddr × List PartitionID) → List Try × σ
  | w, [] => ([], w)
  | w, args :: rest =>
    ((X.executeInternal w args.1 args.2).1 ::
        (issueCalls X (X.executeInternal w args.1 args.2).2 rest).1,
      (issueCalls X (X.executeInternal w args.1 args.2).2 rest).2)

end Vocabulary

/-! ## A small concrete deployment

A store holding a list of key/value pairs, with hosts numbered by naturals. It is the
fixture on which the general statements below are instantiated. Keys are
`[1, space, part]` for partition records and `[2, space, part]` for leader records; a
partition value lists its hosts, a leader value is `[host, term, mark]` with mark 0 for a
record that decodes with `SUCCEEDED`. -/

namespace Fixture

/-- The world of the fixture: the stored pairs, the code the next prefix scans
report, the codes the coming writes report and the terminal states the coming remote
invocations reach (each used up front to back; `SUCCEEDED` and an ok status after), and
the arguments the remote side has received so far, in order of arrival. -/
structure World where
  kvs : List KV
  scanCode : ResultCode
  putCodes : List ResultCode
  outcomes : List Try
  received : List (Nat × List PartitionID) := []
  deriving DecidableEq, Repr

def store : KVStore World where
  get w _ _ key :=
    match w.kvs.lookup key with
    | some v => (ResultCode.SUCCEEDED, v)
    | none => (ResultCode.ERR_KEY_NOT_FOUND, [])
  prefixScan w _ _ pfx := (w.scanCode, w.kvs.filter (fun kv => pfx.isPrefixOf kv.1))
  asyncMultiPut w spaceId partId data :=
    if spaceId ≠ 0 ∨ partId ≠ 0 then (ResultCode.ERR_PART_NOT_FOUND, w)
    else
      match w.putCodes with
      | [] => (ResultCode.SUCCEEDED, { w with kvs := w.kvs ++ data })
      | c :: cs =>
        if c = ResultCode.SUCCEEDED then
          (c, { w with kvs := w.kvs ++ data, putCodes := cs })
        else (c, { w with putCodes := cs })

def utils : MetaServiceUtils Nat where
  indexSpaceKey name := 0 :: name.toList.map Char.toNat
  partPrefix space := [1, space.toNat]
  leaderPrefix space := [2, space.toNat]
  parsePartVal val := val
  parseLeaderKeyV3 key := ((key.getD 1 0 : Nat), (key.getD 2 0 : Nat))
  parseLeaderValV3 val :=
    (val.getD 0 0, (val.getD 1 0 : Nat),
      if val.getD 2 0 = 0 then ErrorCode.SUCCEEDED else ErrorCode.E_UNKNOWN)

/-- The executor of the fixture for job 7 on space 1; the admin address of host `h` is
`h + 100`, and a task record is keyed `[3, job, task]` with the host as its value. The
store of the fixture accepts writes to space 0, part 0 only, and the remote side notes
the address and partitions of every call it receives. -/
def executor (toLeader : Bool) : MetaJobExecutor World Nat where
  jobId := 7
  toLeader := toLeader
  space := 1
  kvstore := store
  utils := utils
  toCode := MetaCommon.toErrorCode
  taskKey t := [3, t.iJob.toNat, t.iTask]
  taskVal t := [t.dest]
  getAdminAddrFromStoreAddr h := h + 100
  executeInternal w h parts :=
    match w.outcomes with
    | [] => (Try.value Status.OK, { w with received := w.received ++ [(h, parts)] })
    | t :: ts => (t, { w with outcomes := ts, received := w.received ++ [(h, parts)] })

/-- Space "logs" (id 1): partitions 1..5 on hosts A = 10, B = 20, C = 30, the last two
partitions on C alone; A leads part 1, B part 2, C parts 3, 4, 5. -/
def logs : World where
  kvs := [([0, 108, 111, 103, 115], [1, 0, 0, 0]),
          ([1, 1, 1], [30, 10, 20]), ([1, 1, 2], [20, 30, 10]), ([1, 1, 3], [10, 20, 30]),
          ([1, 1, 4], [30]), ([1, 1, 5], [30]),
          ([2, 1, 1], [10, 1, 0]), ([2, 1, 2], [20, 1, 0]), ([2, 1, 3], [30, 1, 0]),
          ([2, 1, 4], [30, 1, 0]), ([2, 1, 5], [30, 1, 0])]
  scanCode := ResultCode.SUCCEEDED
  putCodes := []
  outcomes := []

/-- Space 1 after a change of leadership: host 20 leads part 1, host 10 leads part 2, and
the record of part 3 (host 30) does not decode. -/
def handedOver : World where
  kvs := [([1, 1, 1], [10, 20]), ([1, 1, 2], [10, 20]), ([1, 1, 3], [30]),
          ([2, 1, 1], [20, 2, 0]), ([2, 1, 2], [10, 2, 0]), ([2, 1, 3], [30, 2, 1])]
  scanCode := ResultCode.SUCCEEDED
  putCodes := []
  outcomes := []

/-- The world of `logs` in which the second remote invocation reports a failing status. -/
def logsOneFailing : World :=
  { logs with outcomes := [Try.value Status.OK, Try.value (Status.Error "failed"),
      Try.value Status.OK] }

/-- The world of `logs` in which the second task write reports `ERR_CONSENSUS_ERROR`. -/
def logsWriteFails : World :=
  { logs with putCodes := [ResultCode.SUCCEEDED, ResultCode.ERR_CONSENSUS_ERROR] }

/-- The world of `logs` in which prefix scans report `ERR_LEADER_CHANGED`. -/
def logsScanFails : World :=
  { logs with scanCode := ResultCode.ERR_LEADER_CHANGED }

/-- A world in which space 1 exists but has no partition and no leader record. -/
def emptySpace : World where
  kvs := [([0, 108, 111, 103, 115], [1, 0, 0, 0])]
  scanCode := ResultCode.SUCCEEDED
  putCodes := []
  outcomes := []

/-- Space 1 with the hosts of `logs` spread differently: two partitions, host 20 listed
twice, records and hosts in another order. -/
def logsRearranged : World where
  kvs := [([0, 108, 111, 103, 115], [1, 0, 0, 0]),
          ([1, 1, 1], [30]), ([1, 1, 2], [20, 20, 10])]
  scanCode := ResultCode.SUCCEEDED
  putCodes := []
  outcomes := []

/-- A schema with a `TIMESTAMP` column "ts", a string column "name", and a TTL of 100
seconds on "ts". -/
def ttlSchema : NebulaSchemaProvider where
  getFieldType col := if col = "ts" then PropertyType.TIMESTAMP else PropertyType.OTHER 6
  getProp := { ttl_duration := some 100, ttl_col := some "ts" }

/-- The same columns without TTL properties. -/
def plainSchema : NebulaSchemaProvider where
  getFieldType col := if col = "ts" then PropertyType.TIMESTAMP else PropertyType.OTHER 6
  getProp := { ttl_duration := none, ttl_col := none }

/-- A row whose "ts" column holds 1000 and whose other columns are null. -/
def row : RowReader where
  getValueByName col := if col = "ts" then Value.int 1000 else Value.null

end Fixture

/-! ## Lemmas on `std::unique` and `std::sort` -/

section ListLemmas

variable {α β : Type} [DecidableEq α] [DecidableEq β]

theorem mem_uniqueFrom (x a : α) (l : List α) : x ∈ uniqueFrom a l ↔ x = a ∨ x ∈ l := by
  induction l generalizing a with
  | nil => simp [uniqueFrom]
  | cons b l ih =>
    unfold uniqueFrom
    by_cases hab : a = b
    · subst hab
      simp only [if_true, ih, List.mem_cons]
      tauto
    · simp only [hab, if_false, List.mem_cons, ih]

theorem mem_stdUnique (x : α) (l : List α) : x ∈ stdUnique l ↔ x ∈ l := by
  cases l with
  | nil => simp [stdUnique]
  | cons a l => simp [stdUnique, mem_uniqueFrom]

theorem uniqueFrom_map (f : α → β) (hf : Function.Injective f) (a : α) (l : List α) :
    uniqueFrom (f a) (l.map f) = (uniqueFrom a l).map f := by
  induction l generalizing a with
  | nil => simp [uniqueFrom]
  | cons b l ih =>
    simp only [List.map_cons, uniqueFrom]
    by_cases hab : a = b
    · subst hab
      simp [ih]
    · have hne : f a ≠ f b := fun h => hab (hf h)
      simp [hab, hne, ih]

theorem stdUnique_map (f : α → β) (hf : Function.Injective f) (l : List α) :
    stdUnique (l.map f) = (stdUnique l).map f := by
  cases l with
  | nil => simp [stdUnique]
  | cons a l => simp [stdUnique, uniqueFrom_map f hf]

theorem sorted_lt_uniqueFrom {γ : Type} [LinearOrder γ] (a : γ) (l : List γ)
    (h : List.Sorted (· ≤ ·) (a :: l)) : List.Sorted (· < ·) (uniqueFrom a l) := by
  induction l generalizing a with
  | nil => simp [uniqueFrom]
  | cons b l ih =>
    have hab : a ≤ b := List.rel_of_sorted_cons h b (List.mem_cons_self b l)
    have hbl : List.Sorted (· ≤ ·) (b :: l) := h.of_cons
    unfold uniqueFrom
    by_cases heq : a = b
    · subst heq
      simpa using ih a hbl
    · simp only [heq, if_false]
      have hlt : a < b := lt_of_le_of_ne hab heq
      refine List.sorted_cons.2 ⟨?_, ih b hbl⟩
      intro x hx
      rcases (mem_uniqueFrom x b l).1 hx with rfl | hxl
      · exact hlt
      · exact lt_of_lt_of_le hlt (List.rel_of_sorted_cons hbl x hxl)

theorem sorted_lt_stdUnique {γ : Type} [LinearOrder γ] (l : List γ)
    (h : List.Sorted (· ≤ ·) l) : List.Sorted (· < ·) (stdUnique l) := by
  cases l with
  | nil => simp [stdUnique]
  | cons a l => exact sorted_lt_uniqueFrom a l h

end ListLemmas

section TargetLemmas

variable {σ HostAddr : Type}

theorem bare_injective : Function.Injective (bare : HostAddr → HostAddr × List PartitionID) := by
  intro a b h
  exact congrArg Prod.fst h

theorem collectTargets_eq (U : MetaServiceUtils HostAddr) (records : List KV) :
    MetaJobExecutor.collectTargets U records = (scannedHosts U records).map bare := by
  unfold MetaJobExecutor.collectTargets scannedHosts
  rw [List.map_flatMap]
  rfl

theorem map_fst_map_bare (l : List HostAddr) : (l.map bare).map Prod.fst = l := by
  simp [bare, Function.comp_def]

variable [LinearOrder HostAddr]

theorem stdSort_bare (l : List HostAddr) :
    stdSort (l.map bare) = (List.insertionSort (· ≤ ·) l).map bare := by
  unfold stdSort
  symm
  apply List.map_insertionSort
  intro a _ b _
  simp [pairLt, bare, vecLt]

/-- On a successful scan, `getTargetHost` yields the ascending duplicate-free arrangement
of the scanned hosts, each paired with the empty partition vector. -/
theorem getTargetHost_eq (X : MetaJobExecutor σ HostAddr) (s : σ) (spaceId : GraphSpaceID)
    (hscan : (partScan X s spaceId).1 = ResultCode.SUCCEEDED) :
    MetaJobExecutor.getTargetHost X s spaceId =
      .ok ((stdUnique (List.insertionSort (· ≤ ·)
        (scannedHosts X.utils (partScan X s spaceId).2))).map bare) := by
  unfold partScan at hscan ⊢
  unfold MetaJobExecutor.getTargetHost
  simp only [hscan, ne_eq, not_true_eq_false, if_false]
  rw [collectTargets_eq, stdSort_bare, stdUnique_map bare bare_injective]

theorem getTargetHost_error (X : MetaJobExecutor σ HostAddr) (s : σ) (spaceId : GraphSpaceID)
    (hscan : (partScan X s spaceId).1 ≠ ResultCode.SUCCEEDED) :
    MetaJobExecutor.getTargetHost X s spaceId = .error (X.toCode (partScan X s spaceId).1) := by
  unfold partScan at hscan ⊢
  unfold MetaJobExecutor.getTargetHost
  simp only [ne_eq, hscan, not_false_eq_true, if_true]

/-- C1. When the partition prefix scan of a space succeeds, `getTargetHost` returns a
list in which a host occurs if and only if some scanned partition record names it, no
host occurs twice, the number of entries is the number of distinct scanned hosts, and
every entry carries the empty partition list. -/
theorem getTargetHost_distinct_hosts (X : MetaJobExecutor σ HostAddr) (s : σ)
    (spaceId : GraphSpaceID) (hscan : (partScan X s spaceId).1 = ResultCode.SUCCEEDED) :
    ∃ hosts, MetaJobExecutor.getTargetHost X s spaceId = .ok hosts ∧
      (∀ h, h ∈ hosts.map Prod.fst ↔
        ∃ kv ∈ (partScan X s spaceId).2, h ∈ X.utils.parsePartVal kv.2) ∧
      (hosts.map Prod.fst).Nodup ∧
      hosts.length = (scannedHosts X.utils (partScan X s spaceId).2).toFinset.card ∧
      ∀ e ∈ hosts, e.2 = [] := by
  refine ⟨_, getTargetHost_eq X s spaceId hscan, ?_, ?_, ?_, ?_⟩
  · intro h
    rw [map_fst_map_bare, mem_stdUnique, List.mem_insertionSort]
    simp [scannedHosts]
  · rw [map_fst_map_bare]
    exact (sorted_lt_stdUnique _ (List.sorted_insertionSort (· ≤ ·) _)).nodup
  · have hnd : (stdUnique (List.insertionSort (· ≤ ·)
        (scannedHosts X.utils (partScan X s spaceId).2))).Nodup :=
      (sorted_lt_stdUnique _ (List.sorted_insertionSort (· ≤ ·) _)).nodup
    rw [List.length_map, ← List.toFinset_card_of_nodup hnd]
    congr 1
    ext h
    simp [mem_stdUnique, List.mem_insertionSort]
  · intro e he
    rcases List.mem_map.1 he with ⟨h, _, rfl⟩
    rfl

/-- C1, on the fixture: the scan of space 1 succeeds and the statement holds there. -/
theorem getTargetHost_distinct_hosts_witness :
    (partScan (Fixture.executor false) Fixture.logs 1).1 = ResultCode.SUCCEEDED ∧
    ∃ hosts, MetaJobExecutor.getTargetHost (Fixture.executor false) Fixture.logs 1 = .ok hosts ∧
      (∀ h, h ∈ hosts.map Prod.fst ↔
        ∃ kv ∈ (partScan (Fixture.executor false) Fixture.logs 1).2,
          h ∈ (Fixture.executor false).utils.parsePartVal kv.2) ∧
      (hosts.map Prod.fst).Nodup ∧
      hosts.length = (scannedHosts (Fixture.executor false).utils
        (partScan (Fixture.executor false) Fixture.logs 1).2).toFinset.card ∧
      ∀ e ∈ hosts, e.2 = [] :=
  ⟨rfl, getTargetHost_distinct_hosts (Fixture.executor false) Fixture.logs 1 rfl⟩

/-- C8. The host list of a successful `getTargetHost` call is strictly ascending in the
order of host addresses: every host is below all hosts after it, in particular below
its successor. -/
theorem getTargetHost_strictly_ascending (X : MetaJobExecutor σ HostAddr) (s : σ)
    (spaceId : GraphSpaceID) (hosts : Hosts HostAddr)
    (hok : MetaJobExecutor.getTargetHost X s spaceId = .ok hosts) :
    List.Sorted (· < ·) (hosts.map Prod.fst) ∧ List.Chain' (· < ·) (hosts.map Prod.fst) := by
  by_cases hscan : (partScan X s spaceId).1 = ResultCode.SUCCEEDED
  · rw [getTargetHost_eq X s spaceId hscan] at hok
    injection hok with hok
    subst hok
    rw [map_fst_map_bare]
    have hs := sorted_lt_stdUnique _ (List.sorted_insertionSort (· ≤ ·)
      (scannedHosts X.utils (partScan X s spaceId).2))
    exact ⟨hs, List.Pairwise.chain' hs⟩
  · rw [getTargetHost_error X s spaceId hscan] at hok
    cases hok

/-- C8, on the fixture: the call succeeds with hosts 10, 20, 30 and they ascend. -/
theorem getTargetHost_strictly_ascending_witness :
    MetaJobExecutor.getTargetHost (Fixture.executor false) Fixture.logs 1
      = .ok [(10, []), (20, []), (30, [])] ∧
    List.Sorted (· < ·) ([(10, []), (20, []), (30, [])].map
      (Prod.fst : ℕ × List PartitionID → ℕ)) ∧
    List.Chain' (· < ·) ([(10, []), (20, []), (30, [])].map
      (Prod.fst : ℕ × List PartitionID → ℕ)) :=
  ⟨rfl, getTargetHost_strictly_ascending (Fixture.executor false) Fixture.logs 1 _ rfl⟩

end TargetLemmas

section LeaderLemmas

variable {σ HostAddr : Type} [LinearOrder HostAddr]

theorem mem_firstSeen {α : Type} [DecidableEq α] (x : α) (l : List α) :
    x ∈ firstSeen l ↔ x ∈ l := by
  induction l with
  | nil => simp [firstSeen]
  | cons a l ih =>
    simp only [firstSeen, List.mem_cons, List.mem_filter, ih, decide_eq_true_eq]
    by_cases hx : x = a
    · simp [hx]
    · simp [hx]

theorem nodup_firstSeen {α : Type} [DecidableEq α] (l : List α) : (firstSeen l).Nodup := by
  induction l with
  | nil => simp [firstSeen]
  | cons a l ih =>
    simp only [firstSeen, List.nodup_cons, List.mem_filter, decide_eq_true_eq]
    exact ⟨fun h => h.2 rfl, ih.filter _⟩

theorem firstSeen_append_singleton {α : Type} [DecidableEq α] (l : List α) (h : α) :
    firstSeen (l ++ [h]) = if h ∈ l then firstSeen l else firstSeen l ++ [h] := by
  induction l with
  | nil => simp [firstSeen]
  | cons a l ih =>
    simp only [List.cons_append, firstSeen, List.mem_cons, List.append_eq, ih]
    by_cases hl : h ∈ l
    · simp [hl]
    · by_cases ha : h = a
      · subst ha
        simp [hl, List.filter_append]
      · simp [hl, ha, List.filter_append]

theorem partsLedBy_append_singleton (k : HostAddr) (led : List (HostAddr × PartitionID))
    (x : HostAddr × PartitionID) :
    partsLedBy k (led ++ [x]) = partsLedBy k led ++ (if x.1 = k then [x.2] else []) := by
  unfold partsLedBy
  by_cases hx : x.1 = k
  · simp [List.filter_append, hx]
  · simp [List.filter_append, hx]

theorem partsLedBy_eq_nil (k : HostAddr) (led : List (HostAddr × PartitionID))
    (hk : k ∉ led.map Prod.fst) : partsLedBy k led = [] := by
  unfold partsLedBy
  rw [List.map_eq_nil_iff, List.filter_eq_nil_iff]
  intro p hp
  simp only [decide_eq_true_eq]
  intro hpk
  exact hk (List.mem_map.2 ⟨p, hp, hpk⟩)

theorem addLeaderPart_map (h : HostAddr) (p : PartitionID) (F : HostAddr → List PartitionID)
    (ks : List HostAddr) (hnd : ks.Nodup) :
    MetaJobExecutor.addLeaderPart h p (ks.map (fun k => (k, F k))) =
      if h ∈ ks then ks.map (fun k => (k, F k ++ (if h = k then [p] else [])))
      else ks.map (fun k => (k, F k)) ++ [(h, [p])] := by
  induction ks with
  | nil => simp [MetaJobExecutor.addLeaderPart]
  | cons k ks ih =>
    have hk : k ∉ ks := (List.nodup_cons.1 hnd).1
    have hks : ks.Nodup := (List.nodup_cons.1 hnd).2
    simp only [List.map_cons, MetaJobExecutor.addLeaderPart]
    by_cases hkh : k = h
    · subst hkh
      simp only [if_true, List.mem_cons, true_or]
      congr 1
      apply List.map_congr_left
      intro k' hk'
      have : k ≠ k' := fun e => hk (e ▸ hk')
      simp [this]
    · have hhk : h ≠ k := fun e => hkh e.symm
      simp only [hkh, if_false, ih hks, List.mem_cons, hhk, false_or]
      by_cases hin : h ∈ ks
      · simp [hin]
      · simp [hin]

theorem foldl_leaderStep (U : MetaServiceUtils HostAddr) (records : List KV)
    (acc : Hosts HostAddr) :
    records.foldl (MetaJobExecutor.leaderStep U) acc =
      (ledParts U records).foldl (fun a p => MetaJobExecutor.addLeaderPart p.1 p.2 a) acc := by
  induction records generalizing acc with
  | nil => rfl
  | cons kv rs ih =>
    simp only [List.foldl_cons, ih, ledParts, List.filter_cons]
    by_cases hc : leaderCode U kv = ErrorCode.SUCCEEDED
    · have hc' : (U.parseLeaderValV3 kv.2).2.2 = ErrorCode.SUCCEEDED := hc
      simp [hc, MetaJobExecutor.leaderStep, hc', leaderOf, leaderPart]
    · have hc' : ¬ (U.parseLeaderValV3 kv.2).2.2 = ErrorCode.SUCCEEDED := hc
      simp [hc, MetaJobExecutor.leaderStep, hc']

/-- The grouping loop in closed form: the leaders in order of first occurrence, each with
the partitions of its records in scan order. -/
theorem foldl_addLeaderPart (led : List (HostAddr × PartitionID)) :
    led.foldl (fun a p => MetaJobExecutor.addLeaderPart p.1 p.2 a) [] =
      (firstSeen (led.map Prod.fst)).map (fun h => (h, partsLedBy h led)) := by
  induction led using List.reverseRecOn with
  | nil => rfl
  | append_singleton init x ih =>
    rw [List.foldl_append, List.foldl_cons, List.foldl_nil, ih,
      addLeaderPart_map x.1 x.2 _ _ (nodup_firstSeen _), List.map_append, List.map_cons,
      List.map_nil, firstSeen_append_singleton]
    simp only [mem_firstSeen]
    by_cases hin : x.1 ∈ init.map Prod.fst
    · simp only [hin, if_true]
      apply List.map_congr_left
      intro k _
      rw [partsLedBy_append_singleton]
    · simp only [hin, if_false, List.map_append, List.map_cons, List.map_nil]
      congr 1
      · apply List.map_congr_left
        intro k hk
        have hne : x.1 ≠ k := fun e => hin (e ▸ (mem_firstSeen k _).1 hk)
        rw [partsLedBy_append_singleton]
        simp [hne]
      · rw [partsLedBy_append_singleton, partsLedBy_eq_nil x.1 init hin]
        simp

theorem partsLedBy_ledParts (U : MetaServiceUtils HostAddr) (records : List KV)
    (h : HostAddr) :
    partsLedBy h (ledParts U records) =
      (records.filter (fun kv =>
        leaderCode U kv = ErrorCode.SUCCEEDED ∧ leaderOf U kv = h)).map (leaderPart U) := by
  induction records with
  | nil => rfl
  | cons kv rs ih =>
    unfold partsLedBy ledParts at ih ⊢
    by_cases hc : leaderCode U kv = ErrorCode.SUCCEEDED
    · by_cases hl : leaderOf U kv = h
      · simp [List.filter_cons, hc, hl, ih]
      · simp [List.filter_cons, hc, hl, ih]
    · simp [List.filter_cons, hc, ih]

theorem pairwise_indexOf_firstSeen {α : Type} [DecidableEq α] (l : List α) :
    List.Pairwise (fun a b => List.indexOf a l < List.indexOf b l) (firstSeen l) := by
  induction l with
  | nil => simp [firstSeen]
  | cons a l ih =>
    simp only [firstSeen, List.pairwise_cons, List.mem_filter, decide_eq_true_eq]
    constructor
    · intro b hb
      rw [List.indexOf_cons_self, List.indexOf_cons_ne l (Ne.symm hb.2)]
      exact Nat.succ_pos _
    · refine (ih.filter _).imp_of_mem ?_
      intro x y hx hy hxy
      have hxa : x ≠ a := by simpa using (List.mem_filter.1 hx).2
      have hya : y ≠ a := by simpa using (List.mem_filter.1 hy).2
      rw [List.indexOf_cons_ne l (Ne.symm hxa), List.indexOf_cons_ne l (Ne.symm hya)]
      exact Nat.succ_lt_succ hxy

/-- On a successful scan, `getLeaderHost` yields the leaders of the records that decode
with `SUCCEEDED`, in order of first occurrence, each with its partitions in scan order. -/
theorem getLeaderHost_eq (X : MetaJobExecutor σ HostAddr) (s : σ) (space : GraphSpaceID)
    (hscan : (leaderScan X s space).1 = ResultCode.SUCCEEDED) :
    MetaJobExecutor.getLeaderHost X s space =
      .ok ((firstSeen ((ledParts X.utils (leaderScan X s space).2).map Prod.fst)).map
        (fun h => (h, partsLedBy h (ledParts X.utils (leaderScan X s space).2)))) := by
  unfold leaderScan at hscan ⊢
  unfold MetaJobExecutor.getLeaderHost
  simp only [hscan, ne_eq, not_true_eq_false, if_false]
  rw [foldl_leaderStep, foldl_addLeaderPart]

theorem getLeaderHost_error (X : MetaJobExecutor σ HostAddr) (s : σ) (space : GraphSpaceID)
    (hscan : (leaderScan X s space).1 ≠ ResultCode.SUCCEEDED) :
    MetaJobExecutor.getLeaderHost X s space = .error (X.toCode (leaderScan X s space).1) := by
  unfold leaderScan at hscan ⊢
  unfold MetaJobExecutor.getLeaderHost
  simp only [ne_eq, hscan, not_false_eq_true, if_true]

omit [LinearOrder HostAddr] in
theorem mem_map_fst_ledParts (U : MetaServiceUtils HostAddr) (records : List KV)
    (h : HostAddr) :
    h ∈ (ledParts U records).map Prod.fst ↔
      ∃ kv ∈ records, leaderCode U kv = ErrorCode.SUCCEEDED ∧ leaderOf U kv = h := by
  simp only [ledParts, List.map_map, List.mem_map, List.mem_filter, Function.comp_apply,
    decide_eq_true_eq]
  constructor
  · rintro ⟨kv, ⟨hkv, hc⟩, rfl⟩
    exact ⟨kv, hkv, hc, rfl⟩
  · rintro ⟨kv, hkv, hc, rfl⟩
    exact ⟨kv, ⟨hkv, hc⟩, rfl⟩

/-- C2. When the leader prefix scan of a space succeeds, `getLeaderHost` returns a list
with pairwise distinct hosts in which a host occurs if and only if some scanned record
decodes with status `SUCCEEDED` and that host as leader, and the partition list paired
with a host is exactly the partition ids of those records, in scan order. Records whose
status is not `SUCCEEDED` therefore contribute neither a host nor a partition id. -/
theorem getLeaderHost_groups_by_leader (X : MetaJobExecutor σ HostAddr) (s : σ)
    (space : GraphSpaceID) (hscan : (leaderScan X s space).1 = ResultCode.SUCCEEDED) :
    ∃ hosts, MetaJobExecutor.getLeaderHost X s space = .ok hosts ∧
      (hosts.map Prod.fst).Nodup ∧
      (∀ h, h ∈ hosts.map Prod.fst ↔
        ∃ kv ∈ (leaderScan X s space).2,
          leaderCode X.utils kv = ErrorCode.SUCCEEDED ∧ leaderOf X.utils kv = h) ∧
      ∀ e ∈ hosts, e.2 = ((leaderScan X s space).2.filter (fun kv =>
        leaderCode X.utils kv = ErrorCode.SUCCEEDED ∧ leaderOf X.utils kv = e.1)).map
          (leaderPart X.utils) := by
  have hkeys : ∀ (ks : List HostAddr) (F : HostAddr → List PartitionID),
      (ks.map (fun h => (h, F h))).map Prod.fst = ks := by
    intro ks F
    simp [Function.comp_def]
  refine ⟨_, getLeaderHost_eq X s space hscan, ?_, ?_, ?_⟩
  · rw [hkeys]
    exact nodup_firstSeen _
  · intro h
    rw [hkeys, mem_firstSeen, mem_map_fst_ledParts]
  · intro e he
    rcases List.mem_map.1 he with ⟨h, _, rfl⟩
    exact partsLedBy_ledParts X.utils _ h

/-- C2, on the fixture: A = 10 leads part 1, B = 20 part 2, C = 30 parts 3, 4, 5. -/
theorem getLeaderHost_groups_by_leader_witness :
    ((leaderScan (Fixture.executor true) Fixture.logs 1).1 = ResultCode.SUCCEEDED ∧
    ∃ hosts, MetaJobExecutor.getLeaderHost (Fixture.executor true) Fixture.logs 1 = .ok hosts ∧
      (hosts.map Prod.fst).Nodup ∧
      (∀ h, h ∈ hosts.map Prod.fst ↔
        ∃ kv ∈ (leaderScan (Fixture.executor true) Fixture.logs 1).2,
          leaderCode (Fixture.executor true).utils kv = ErrorCode.SUCCEEDED ∧
            leaderOf (Fixture.executor true).utils kv = h) ∧
      ∀ e ∈ hosts, e.2 = ((leaderScan (Fixture.executor true) Fixture.logs 1).2.filter
        (fun kv => leaderCode (Fixture.executor true).utils kv = ErrorCode.SUCCEEDED ∧
          leaderOf (Fixture.executor true).utils kv = e.1)).map
          (leaderPart (Fixture.executor true).utils)) ∧
    MetaJobExecutor.getLeaderHost (Fixture.executor true) Fixture.logs 1
      = .ok [(10, [1]), (20, [2]), (30, [3, 4, 5])] :=
  ⟨⟨rfl, getLeaderHost_groups_by_leader (Fixture.executor true) Fixture.logs 1 rfl⟩, rfl⟩

/-- C9, as stated, fails: with host 20 leading part 1 and host 10 leading part 2 the call
succeeds and returns host 20 before host 10, which is not ascending. -/
theorem getLeaderHost_not_ascending :
    MetaJobExecutor.getLeaderHost (Fixture.executor true) Fixture.handedOver 1
      = .ok [(20, [1]), (10, [2])] ∧
    ¬ List.Sorted (· ≤ ·) ([(20, [1]), (10, [2])].map
      (Prod.fst : ℕ × List PartitionID → ℕ)) := by
  refine ⟨rfl, ?_⟩
  decide

/-- C9, amended. The host list of a successful `getLeaderHost` call is in scan order of
first leadership: a host stands before another exactly as its first record decoding with
`SUCCEEDED` is scanned before the first such record of the other. -/
theorem getLeaderHost_first_seen_order (X : MetaJobExecutor σ HostAddr) (s : σ)
    (space : GraphSpaceID) (hosts : Hosts HostAddr)
    (hok : MetaJobExecutor.getLeaderHost X s space = .ok hosts) :
    List.Pairwise
      (fun a b =>
        List.indexOf a ((ledParts X.utils (leaderScan X s space).2).map Prod.fst) <
          List.indexOf b ((ledParts X.utils (leaderScan X s space).2).map Prod.fst))
      (hosts.map Prod.fst) := by
  by_cases hscan : (leaderScan X s space).1 = ResultCode.SUCCEEDED
  · rw [getLeaderHost_eq X s space hscan] at hok
    injection hok with hok
    subst hok
    have hkeys : ((firstSeen ((ledParts X.utils (leaderScan X s space).2).map Prod.fst)).map
        (fun h => (h, partsLedBy h (ledParts X.utils (leaderScan X s space).2)))).map Prod.fst
        = firstSeen ((ledParts X.utils (leaderScan X s space).2).map Prod.fst) := by
      simp [Function.comp_def]
    rw [hkeys]
    exact pairwise_indexOf_firstSeen _
  · rw [getLeaderHost_error X s space hscan] at hok
    cases hok

/-- C9 amended, on the fixture: the call returns hosts 20, 10, the order in which their
first records are scanned. -/
theorem getLeaderHost_first_seen_order_witness :
    MetaJobExecutor.getLeaderHost (Fixture.executor true) Fixture.handedOver 1
      = .ok [(20, [1]), (10, [2])] ∧
    List.Pairwise
      (fun a b =>
        List.indexOf a ((ledParts (Fixture.executor true).utils
          (leaderScan (Fixture.executor true) Fixture.handedOver 1).2).map Prod.fst) <
        List.indexOf b ((ledParts (Fixture.executor true).utils
          (leaderScan (Fixture.executor true) Fixture.handedOver 1).2).map Prod.fst))
      ([(20, [1]), (10, [2])].map (Prod.fst : ℕ × List PartitionID → ℕ)) :=
  ⟨rfl, getLeaderHost_first_seen_order (Fixture.executor true) Fixture.handedOver 1 _ rfl⟩

end LeaderLemmas

section ExecuteLemmas

variable {σ HostAddr : Type}

theorem writeTasks_cons_fail (X : MetaJobExecutor σ HostAddr) (i : Nat)
    (address : HostAddr × List PartitionID) (rest : Hosts HostAddr) (s : σ)
    (h : (X.kvstore.asyncMultiPut s kDefaultSpaceId kDefaultPartId
      (MetaJobExecutor.taskData X i address.1)).1 ≠ ResultCode.SUCCEEDED) :
    MetaJobExecutor.writeTasks X i (address :: rest) s =
      ((X.kvstore.asyncMultiPut s kDefaultSpaceId kDefaultPartId
          (MetaJobExecutor.taskData X i address.1)).1,
        [{ spaceId := kDefaultSpaceId, partId := kDefaultPartId,
           data := MetaJobExecutor.taskData X i address.1,
           rc := (X.kvstore.asyncMultiPut s kDefaultSpaceId kDefaultPartId
             (MetaJobExecutor.taskData X i address.1)).1 }],
        (X.kvstore.asyncMultiPut s kDefaultSpaceId kDefaultPartId
          (MetaJobExecutor.taskData X i address.1)).2) := by
  rw [MetaJobExecutor.writeTasks]
  exact if_pos h

theorem writeTasks_cons_ok (X : MetaJobExecutor σ HostAddr) (i : Nat)
    (address : HostAddr × List PartitionID) (rest : Hosts HostAddr) (s : σ)
    (h : (X.kvstore.asyncMultiPut s kDefaultSpaceId kDefaultPartId
      (MetaJobExecutor.taskData X i address.1)).1 = ResultCode.SUCCEEDED) :
    MetaJobExecutor.writeTasks X i (address :: rest) s =
      ((MetaJobExecutor.writeTasks X (i + 1) rest
          (X.kvstore.asyncMultiPut s kDefaultSpaceId kDefaultPartId
            (MetaJobExecutor.taskData X i address.1)).2).1,
        { spaceId := kDefaultSpaceId, partId := kDefaultPartId,
          data := MetaJobExecutor.taskData X i address.1,
          rc := ResultCode.SUCCEEDED } ::
          (MetaJobExecutor.writeTasks X (i + 1) rest
            (X.kvstore.asyncMultiPut s kDefaultSpaceId kDefaultPartId
              (MetaJobExecutor.taskData X i address.1)).2).2.1,
        (MetaJobExecutor.writeTasks X (i + 1) rest
          (X.kvstore.asyncMultiPut s kDefaultSpaceId kDefaultPartId
            (MetaJobExecutor.taskData X i address.1)).2).2.2) := by
  rw [MetaJobExecutor.writeTasks]
  simp only [ne_eq, h, not_true_eq_false, if_false]

/-- A write of the loop that reports a failure is the one whose code the loop ends with. -/
theorem writeTasks_failed_put (X : MetaJobExecutor σ HostAddr) (i : Nat)
    (hs : Hosts HostAddr) (s : σ) (put : PutRecord)
    (hput : put ∈ (MetaJobExecutor.writeTasks X i hs s).2.1)
    (hrc : put.rc ≠ ResultCode.SUCCEEDED) :
    (MetaJobExecutor.writeTasks X i hs s).1 = put.rc := by
  induction hs generalizing i s with
  | nil => simp [MetaJobExecutor.writeTasks] at hput
  | cons address rest ih =>
    by_cases h : (X.kvstore.asyncMultiPut s kDefaultSpaceId kDefaultPartId
        (MetaJobExecutor.taskData X i address.1)).1 = ResultCode.SUCCEEDED
    · rw [writeTasks_cons_ok X i address rest s h] at hput ⊢
      rcases List.mem_cons.1 hput with rfl | hmem
      · exact absurd rfl hrc
      · exact ih (i + 1) _ hmem
    · rw [writeTasks_cons_fail X i address rest s h] at hput ⊢
      rcases List.mem_cons.1 hput with rfl | hmem
      · rfl
      · cases hmem

/-- When every write the loop issues succeeds, the loop ends with `SUCCEEDED` having issued
one write per entry, in order, the entry at offset `k` with counter value `i + k`. -/
theorem writeTasks_all_ok (X : MetaJobExecutor σ HostAddr) (i : Nat)
    (hs : Hosts HostAddr) (s : σ)
    (hall : ∀ put ∈ (MetaJobExecutor.writeTasks X i hs s).2.1, put.rc = ResultCode.SUCCEEDED) :
    (MetaJobExecutor.writeTasks X i hs s).1 = ResultCode.SUCCEEDED ∧
    (MetaJobExecutor.writeTasks X i hs s).2.1 =
      (hs.enumFrom i).map (fun ka => taskPut X (ka.1 % 2 ^ 32) ka.2.1 ResultCode.SUCCEEDED) := by
  induction hs generalizing i s with
  | nil => simp [MetaJobExecutor.writeTasks]
  | cons address rest ih =>
    by_cases h : (X.kvstore.asyncMultiPut s kDefaultSpaceId kDefaultPartId
        (MetaJobExecutor.taskData X i address.1)).1 = ResultCode.SUCCEEDED
    · rw [writeTasks_cons_ok X i address rest s h] at hall ⊢
      have hrest := ih (i + 1) _ (fun put hp => hall put (List.mem_cons_of_mem _ hp))
      refine ⟨hrest.1, ?_⟩
      simp only [List.enumFrom_cons, List.map_cons]
      rw [← hrest.2]
      rfl
    · rw [writeTasks_cons_fail X i address rest s h] at hall
      exact absurd (hall _ (List.mem_cons_self _ _)) h

theorem dispatch_calls (X : MetaJobExecutor σ HostAddr) (hs : Hosts HostAddr) (s : σ) :
    (MetaJobExecutor.dispatch X hs s).1.map (fun c => (c.address, c.parts)) =
      hs.map (fun a => (X.getAdminAddrFromStoreAddr a.1, a.2)) := by
  induction hs generalizing s with
  | nil => rfl
  | cons address rest ih =>
    simp only [MetaJobExecutor.dispatch, List.map_cons, ih]

/-- The dispatch loop hands every entry to `executeInternal`, one after another: its
outcomes and final world are those of the remote side receiving the admin address and
the partition vector of each entry in list order. -/
theorem dispatch_issueCalls (X : MetaJobExecutor σ HostAddr) (hs : Hosts HostAddr) (w : σ) :
    (MetaJobExecutor.dispatch X hs w).1.map (fun c => c.outcome) =
      (issueCalls X w (hs.map (fun a => (X.getAdminAddrFromStoreAddr a.1, a.2)))).1 ∧
    (MetaJobExecutor.dispatch X hs w).2 =
      (issueCalls X w (hs.map (fun a => (X.getAdminAddrFromStoreAddr a.1, a.2)))).2 := by
  induction hs generalizing w with
  | nil => exact ⟨rfl, rfl⟩
  | cons address rest ih =>
    simp only [MetaJobExecutor.dispatch, List.map_cons, issueCalls]
    exact ⟨by rw [(ih _).1], (ih _).2⟩

theorem foldl_aggregateStep (rc : ErrorCode) (tries : List Try) :
    tries.foldl MetaJobExecutor.aggregateStep rc =
      if tries.all Try.completedOk then rc else ErrorCode.E_RPC_FAILURE := by
  induction tries generalizing rc with
  | nil => rfl
  | cons t ts ih =>
    rw [List.foldl_cons, ih]
    cases t with
    | exception what => simp [MetaJobExecutor.aggregateStep, Try.completedOk]
    | value st =>
      cases hst : st.ok <;> simp [MetaJobExecutor.aggregateStep, Try.completedOk, hst]

theorem completedOk_iff (t : Try) :
    t.completedOk = true ↔ ∃ st, t = Try.value st ∧ st.ok = true := by
  cases t with
  | exception what => simp [Try.completedOk]
  | value st => simp [Try.completedOk]

variable [LinearOrder HostAddr]

theorem execute_of_error (X : MetaJobExecutor σ HostAddr) (s : σ) (e : ErrorCode)
    (hres : MetaJobExecutor.resolveHosts X s = .error e) :
    MetaJobExecutor.execute X s = { code := e, puts := [], calls := [], world := s } := by
  unfold MetaJobExecutor.execute
  rw [hres]

theorem execute_of_write_failure (X : MetaJobExecutor σ HostAddr) (s : σ)
    (hs : Hosts HostAddr) (hres : MetaJobExecutor.resolveHosts X s = .ok hs)
    (hw : (MetaJobExecutor.writeTasks X 0 hs s).1 ≠ ResultCode.SUCCEEDED) :
    MetaJobExecutor.execute X s =
      { code := X.toCode (MetaJobExecutor.writeTasks X 0 hs s).1,
        puts := (MetaJobExecutor.writeTasks X 0 hs s).2.1,
        calls := [],
        world := (MetaJobExecutor.writeTasks X 0 hs s).2.2 } := by
  unfold MetaJobExecutor.execute
  rw [hres]
  simp only [ne_eq, hw, not_false_eq_true, if_true]

theorem execute_of_write_ok (X : MetaJobExecutor σ HostAddr) (s : σ)
    (hs : Hosts HostAddr) (hres : MetaJobExecutor.resolveHosts X s = .ok hs)
    (hw : (MetaJobExecutor.writeTasks X 0 hs s).1 = ResultCode.SUCCEEDED) :
    MetaJobExecutor.execute X s =
      { code := MetaJobExecutor.aggregate
          ((MetaJobExecutor.dispatch X hs (MetaJobExecutor.writeTasks X 0 hs s).2.2).1.map
            (fun c => c.outcome)),
        puts := (MetaJobExecutor.writeTasks X 0 hs s).2.1,
        calls := (MetaJobExecutor.dispatch X hs (MetaJobExecutor.writeTasks X 0 hs s).2.2).1,
        world := (MetaJobExecutor.dispatch X hs (MetaJobExecutor.writeTasks X 0 hs s).2.2).2 } := by
  unfold MetaJobExecutor.execute
  rw [hres]
  simp only [ne_eq, hw, not_true_eq_false, if_false]

/-- The writes a run records are those of its write loop. -/
theorem execute_puts (X : MetaJobExecutor σ HostAddr) (s : σ)
    (hs : Hosts HostAddr) (hres : MetaJobExecutor.resolveHosts X s = .ok hs) :
    (MetaJobExecutor.execute X s).puts = (MetaJobExecutor.writeTasks X 0 hs s).2.1 := by
  by_cases hw : (MetaJobExecutor.writeTasks X 0 hs s).1 = ResultCode.SUCCEEDED
  · rw [execute_of_write_ok X s hs hres hw]
  · rw [execute_of_write_failure X s hs hres hw]

/-- When the hosts resolve and every recorded write succeeded, the write loop completed
with `SUCCEEDED`. -/
theorem writeTasks_ok_of_puts (X : MetaJobExecutor σ HostAddr) (s : σ)
    (hs : Hosts HostAddr) (hres : MetaJobExecutor.resolveHosts X s = .ok hs)
    (hputs : ∀ put ∈ (MetaJobExecutor.execute X s).puts, put.rc = ResultCode.SUCCEEDED) :
    (MetaJobExecutor.writeTasks X 0 hs s).1 = ResultCode.SUCCEEDED := by
  rw [execute_puts X s hs hres] at hputs
  exact (writeTasks_all_ok X 0 hs s hputs).1

omit [LinearOrder HostAddr] in
theorem all_completedOk_iff (calls : List (Invocation HostAddr)) :
    ((calls.map (fun c => c.outcome)).all Try.completedOk = true) ↔
      ∀ c ∈ calls, ∃ st, c.outcome = Try.value st ∧ st.ok = true := by
  induction calls with
  | nil => simp
  | cons c cs ih =>
    simp only [List.map_cons, List.all_cons, Bool.and_eq_true, ih, completedOk_iff,
      List.forall_mem_cons]

omit [LinearOrder HostAddr] in
theorem aggregate_of_all_ok (calls : List (Invocation HostAddr))
    (h : ∀ c ∈ calls, ∃ st, c.outcome = Try.value st ∧ st.ok = true) :
    MetaJobExecutor.aggregate (calls.map (fun c => c.outcome)) = ErrorCode.SUCCEEDED := by
  unfold MetaJobExecutor.aggregate
  rw [foldl_aggregateStep, if_pos ((all_completedOk_iff calls).2 h)]

omit [LinearOrder HostAddr] in
theorem aggregate_of_not_all_ok (calls : List (Invocation HostAddr))
    (h : ¬ ∀ c ∈ calls, ∃ st, c.outcome = Try.value st ∧ st.ok = true) :
    MetaJobExecutor.aggregate (calls.map (fun c => c.outcome)) = ErrorCode.E_RPC_FAILURE := by
  unfold MetaJobExecutor.aggregate
  rw [foldl_aggregateStep, if_neg (fun e => h ((all_completedOk_iff calls).1 e))]

/-- C3. In a run of `execute` whose hosts resolve and whose task writes all succeed, the
returned code is `SUCCEEDED` when every invocation completed without an exception and
with an ok status, and `E_RPC_FAILURE` in every other case. -/
theorem execute_code_succeeded_iff_all_ok (X : MetaJobExecutor σ HostAddr) (s : σ)
    (hs : Hosts HostAddr) (hres : MetaJobExecutor.resolveHosts X s = .ok hs)
    (hputs : ∀ put ∈ (MetaJobExecutor.execute X s).puts, put.rc = ResultCode.SUCCEEDED) :
    ((MetaJobExecutor.execute X s).code = ErrorCode.SUCCEEDED ↔
      ∀ c ∈ (MetaJobExecutor.execute X s).calls,
        ∃ st, c.outcome = Try.value st ∧ st.ok = true) ∧
    ((¬ ∀ c ∈ (MetaJobExecutor.execute X s).calls,
        ∃ st, c.outcome = Try.value st ∧ st.ok = true) →
      (MetaJobExecutor.execute X s).code = ErrorCode.E_RPC_FAILURE) := by
  have hw := writeTasks_ok_of_puts X s hs hres hputs
  rw [execute_of_write_ok X s hs hres hw]
  refine ⟨⟨?_, fun hall => aggregate_of_all_ok _ hall⟩, fun hno => aggregate_of_not_all_ok _ hno⟩
  intro hcode
  by_contra hno
  have hfail := aggregate_of_not_all_ok _ hno
  simp only at hcode hfail
  rw [hfail] at hcode
  cases hcode

/-- C3, on the fixture: three hosts, the second reporting a failing status. -/
theorem execute_code_succeeded_iff_all_ok_witness :
    MetaJobExecutor.resolveHosts (Fixture.executor true) Fixture.logsOneFailing
      = .ok [(10, [1]), (20, [2]), (30, [3, 4, 5])] ∧
    (∀ put ∈ (MetaJobExecutor.execute (Fixture.executor true) Fixture.logsOneFailing).puts,
      put.rc = ResultCode.SUCCEEDED) ∧
    ((MetaJobExecutor.execute (Fixture.executor true) Fixture.logsOneFailing).code
        = ErrorCode.SUCCEEDED ↔
      ∀ c ∈ (MetaJobExecutor.execute (Fixture.executor true) Fixture.logsOneFailing).calls,
        ∃ st, c.outcome = Try.value st ∧ st.ok = true) ∧
    ((¬ ∀ c ∈ (MetaJobExecutor.execute (Fixture.executor true) Fixture.logsOneFailing).calls,
        ∃ st, c.outcome = Try.value st ∧ st.ok = true) →
      (MetaJobExecutor.execute (Fixture.executor true) Fixture.logsOneFailing).code
        = ErrorCode.E_RPC_FAILURE) :=
  ⟨rfl, by decide,
    execute_code_succeeded_iff_all_ok (Fixture.executor true) Fixture.logsOneFailing _ rfl
      (by decide)⟩

/-- C4. In a run of `execute` whose hosts resolve, if the task write at index `i` reports
a code `rc` other than `SUCCEEDED`, the run returns the translation of `rc` and makes no
remote invocation. -/
theorem execute_write_failure_aborts (X : MetaJobExecutor σ HostAddr) (s : σ)
    (hs : Hosts HostAddr) (i : Nat) (put : PutRecord)
    (hres : MetaJobExecutor.resolveHosts X s = .ok hs)
    (hi : (MetaJobExecutor.execute X s).puts[i]? = some put)
    (hrc : put.rc ≠ ResultCode.SUCCEEDED) :
    (MetaJobExecutor.execute X s).code = X.toCode put.rc ∧
    (MetaJobExecutor.execute X s).calls = [] := by
  have hmem : put ∈ (MetaJobExecutor.writeTasks X 0 hs s).2.1 := by
    rw [← execute_puts X s hs hres]
    exact List.getElem?_mem hi
  have hw := writeTasks_failed_put X 0 hs s put hmem hrc
  have hne : (MetaJobExecutor.writeTasks X 0 hs s).1 ≠ ResultCode.SUCCEEDED := by
    rw [hw]
    exact hrc
  rw [execute_of_write_failure X s hs hres hne, hw]
  exact ⟨rfl, rfl⟩

/-- C4, on the fixture: the write for the host at index 1 reports `ERR_CONSENSUS_ERROR`;
the run returns `E_CONSENSUS_ERROR` and invokes no host. -/
theorem execute_write_failure_aborts_witness :
    MetaJobExecutor.resolveHosts (Fixture.executor true) Fixture.logsWriteFails
      = .ok [(10, [1]), (20, [2]), (30, [3, 4, 5])] ∧
    (MetaJobExecutor.execute (Fixture.executor true) Fixture.logsWriteFails).puts[1]?
      = some { spaceId := 0, partId := 0, data := [([3, 7, 1], [20])],
               rc := ResultCode.ERR_CONSENSUS_ERROR } ∧
    (MetaJobExecutor.execute (Fixture.executor true) Fixture.logsWriteFails).code
      = ErrorCode.E_CONSENSUS_ERROR ∧
    (MetaJobExecutor.execute (Fixture.executor true) Fixture.logsWriteFails).calls = [] :=
  ⟨rfl, rfl,
    execute_write_failure_aborts (Fixture.executor true) Fixture.logsWriteFails _ 1
      { spaceId := 0, partId := 0, data := [([3, 7, 1], [20])],
        rc := ResultCode.ERR_CONSENSUS_ERROR } rfl rfl (by decide)⟩

/-- C6. When the resolver the run selects (`getLeaderHost` if `toLeader_` is set,
`getTargetHost` otherwise) returns an error code, `execute` returns that code, issues no
task write and makes no remote invocation. -/
theorem execute_resolver_failure (X : MetaJobExecutor σ HostAddr) (s : σ) (e : ErrorCode)
    (hres : (if X.toLeader then MetaJobExecutor.getLeaderHost X s X.space
      else MetaJobExecutor.getTargetHost X s X.space) = .error e) :
    (MetaJobExecutor.execute X s).code = e ∧
    (MetaJobExecutor.execute X s).puts = [] ∧
    (MetaJobExecutor.execute X s).calls = [] ∧
    (MetaJobExecutor.execute X s).world = s := by
  rw [execute_of_error X s e hres]
  exact ⟨rfl, rfl, rfl, rfl⟩

/-- C6, on the fixture: the leader scan reports `ERR_LEADER_CHANGED`, the run returns
`E_LEADER_CHANGED` with no write and no invocation. -/
theorem execute_resolver_failure_witness :
    (if (Fixture.executor true).toLeader
      then MetaJobExecutor.getLeaderHost (Fixture.executor true) Fixture.logsScanFails
        (Fixture.executor true).space
      else MetaJobExecutor.getTargetHost (Fixture.executor true) Fixture.logsScanFails
        (Fixture.executor true).space) = .error ErrorCode.E_LEADER_CHANGED ∧
    (MetaJobExecutor.execute (Fixture.executor true) Fixture.logsScanFails).code
      = ErrorCode.E_LEADER_CHANGED ∧
    (MetaJobExecutor.execute (Fixture.executor true) Fixture.logsScanFails).puts = [] ∧
    (MetaJobExecutor.execute (Fixture.executor true) Fixture.logsScanFails).calls = [] ∧
    (MetaJobExecutor.execute (Fixture.executor true) Fixture.logsScanFails).world
      = Fixture.logsScanFails :=
  ⟨rfl, execute_resolver_failure (Fixture.executor true) Fixture.logsScanFails _ rfl⟩

omit [LinearOrder HostAddr] in
/-- When every write of the loop succeeds, the store has received, one after another from
the world the loop started in, the key/value vector of every entry, has replied
`SUCCEEDED` to each, and is left in the world the loop ends in. -/
theorem writeTasks_issuePuts (X : MetaJobExecutor σ HostAddr) (j : Nat)
    (hs : Hosts HostAddr) (s : σ)
    (hall : ∀ put ∈ (MetaJobExecutor.writeTasks X j hs s).2.1, put.rc = ResultCode.SUCCEEDED) :
    issuePuts X s ((hs.enumFrom j).map (fun ka => taskBatch X (ka.1 % 2 ^ 32) ka.2.1)) =
      (hs.map (fun _ => ResultCode.SUCCEEDED), (MetaJobExecutor.writeTasks X j hs s).2.2) := by
  induction hs generalizing j s with
  | nil => rfl
  | cons address rest ih =>
    by_cases h : (X.kvstore.asyncMultiPut s kDefaultSpaceId kDefaultPartId
        (MetaJobExecutor.taskData X j address.1)).1 = ResultCode.SUCCEEDED
    · rw [writeTasks_cons_ok X j address rest s h] at hall ⊢
      have hrest := ih (j + 1) _ (fun put hp => hall put (List.mem_cons_of_mem _ hp))
      have hstep : (X.kvstore.asyncMultiPut s 0 0 (taskBatch X (j % 2 ^ 32) address.1)).1
          = ResultCode.SUCCEEDED := h
      simp only [List.enumFrom_cons, List.map_cons, issuePuts, hstep]
      have hworld : (X.kvstore.asyncMultiPut s 0 0 (taskBatch X (j % 2 ^ 32) address.1)).2
          = (X.kvstore.asyncMultiPut s kDefaultSpaceId kDefaultPartId
              (MetaJobExecutor.taskData X j address.1)).2 := rfl
      rw [hworld, hrest]
    · rw [writeTasks_cons_fail X j address rest s h] at hall
      exact absurd (hall _ (List.mem_cons_self _ _)) h

/-- C7. In a run of `execute` whose hosts resolve to `hs` (fewer than 2^32 entries, the
range of the 32-bit loop counter) and whose task writes all succeed, the store writes are
one per resolved host, in list order; the k-th write (from 0) carries the single key/value
pair built from `TaskDescription(jobId, k, hs[k].host)` and goes to space 0, part 0. The
store receives exactly these vectors, one `asyncMultiPut` after another from the world the
run started in, replies `SUCCEEDED` to each, and the world it is then left in is the one
the remote invocations start from. -/
theorem execute_writes_one_task_per_host (X : MetaJobExecutor σ HostAddr) (s : σ)
    (hs : Hosts HostAddr) (hres : MetaJobExecutor.resolveHosts X s = .ok hs)
    (hputs : ∀ put ∈ (MetaJobExecutor.execute X s).puts, put.rc = ResultCode.SUCCEEDED)
    (hlen : hs.length < 2 ^ 32) :
    (MetaJobExecutor.execute X s).puts =
      hs.enum.map (fun ka => taskPut X ka.1 ka.2.1 ResultCode.SUCCEEDED) ∧
    (issuePuts X s (hs.enum.map (fun ka => taskBatch X ka.1 ka.2.1))).1 =
      hs.map (fun _ => ResultCode.SUCCEEDED) ∧
    (MetaJobExecutor.execute X s).world =
      (issueCalls X (issuePuts X s (hs.enum.map (fun ka => taskBatch X ka.1 ka.2.1))).2
        (hs.map (fun a => (X.getAdminAddrFromStoreAddr a.1, a.2)))).2 := by
  have hw := writeTasks_ok_of_puts X s hs hres hputs
  have hmod : (hs.enumFrom 0).map (fun ka => taskBatch X (ka.1 % 2 ^ 32) ka.2.1) =
      hs.enum.map (fun ka => taskBatch X ka.1 ka.2.1) := by
    rw [List.enum_eq_enumFrom]
    apply List.map_congr_left
    intro ka hka
    have hlt : ka.1 < hs.length := List.fst_lt_of_mem_enum hka
    rw [Nat.mod_eq_of_lt (lt_trans hlt hlen)]
  rw [execute_puts X s hs hres] at hputs
  have hissue := writeTasks_issuePuts X 0 hs s hputs
  rw [hmod] at hissue
  refine ⟨?_, ?_, ?_⟩
  · rw [execute_puts X s hs hres, (writeTasks_all_ok X 0 hs s hputs).2,
      List.enum_eq_enumFrom]
    apply List.map_congr_left
    intro ka hka
    have hlt : ka.1 < hs.length := List.fst_lt_of_mem_enum hka
    rw [Nat.mod_eq_of_lt (lt_trans hlt hlen)]
  · rw [hissue]
  · rw [hissue, execute_of_write_ok X s hs hres hw]
    exact (dispatch_issueCalls X hs _).2

/-- C7, on the fixture: three hosts, three writes keyed by task ids 0, 1, 2, and the three
pairs are in the store afterwards, behind what it held before. -/
theorem execute_writes_one_task_per_host_witness :
    MetaJobExecutor.resolveHosts (Fixture.executor true) Fixture.logs
      = .ok [(10, [1]), (20, [2]), (30, [3, 4, 5])] ∧
    (MetaJobExecutor.execute (Fixture.executor true) Fixture.logs).puts
      = [{ spaceId := 0, partId := 0, data := [([3, 7, 0], [10])], rc := ResultCode.SUCCEEDED },
         { spaceId := 0, partId := 0, data := [([3, 7, 1], [20])], rc := ResultCode.SUCCEEDED },
         { spaceId := 0, partId := 0, data := [([3, 7, 2], [30])], rc := ResultCode.SUCCEEDED }] ∧
    (MetaJobExecutor.execute (Fixture.executor true) Fixture.logs).world.kvs
      = Fixture.logs.kvs ++ [([3, 7, 0], [10]), ([3, 7, 1], [20]), ([3, 7, 2], [30])] ∧
    ((MetaJobExecutor.execute (Fixture.executor true) Fixture.logs).puts =
      [(10, [1]), (20, [2]), (30, [3, 4, 5])].enum.map
        (fun ka => taskPut (Fixture.executor true) ka.1 ka.2.1 ResultCode.SUCCEEDED) ∧
    (issuePuts (Fixture.executor true) Fixture.logs
        ([(10, [1]), (20, [2]), (30, [3, 4, 5])].enum.map
          (fun ka => taskBatch (Fixture.executor true) ka.1 ka.2.1))).1 =
      [(10, [1]), (20, [2]), (30, [3, 4, 5])].map (fun _ => ResultCode.SUCCEEDED) ∧
    (MetaJobExecutor.execute (Fixture.executor true) Fixture.logs).world =
      (issueCalls (Fixture.executor true)
        (issuePuts (Fixture.executor true) Fixture.logs
          ([(10, [1]), (20, [2]), (30, [3, 4, 5])].enum.map
            (fun ka => taskBatch (Fixture.executor true) ka.1 ka.2.1))).2
        ([(10, [1]), (20, [2]), (30, [3, 4, 5])].map
          (fun a => ((Fixture.executor true).getAdminAddrFromStoreAddr a.1, a.2)))).2) :=
  ⟨rfl, rfl, rfl,
    execute_writes_one_task_per_host (Fixture.executor true) Fixture.logs _ rfl
      (by decide) (by decide)⟩

end ExecuteLemmas

section SpaceIdLemmas

variable {σ HostAddr : Type}

/-- Reading back the four bytes of a 32-bit space id gives the id. -/
theorem readSpaceId_spaceIdBytes (id : Int) (hlo : -2 ^ 31 ≤ id) (hhi : id < 2 ^ 31)
    (rest : Bytes) : readSpaceId (spaceIdBytes id ++ rest) = id := by
  unfold readSpaceId spaceIdBytes
  simp only [List.cons_append, List.getD_cons_zero, List.getD_cons_succ, Nat.mod_mod]
  have hu : ((id % 2 ^ 32).toNat : Int) = id % 2 ^ 32 :=
    Int.toNat_of_nonneg (Int.emod_nonneg _ (by norm_num))
  have hlt : (id % 2 ^ 32).toNat < 2 ^ 32 := by
    have := Int.emod_lt_of_pos id (show (0 : Int) < 2 ^ 32 by norm_num)
    omega
  generalize (id % 2 ^ 32).toNat = u at hu hlt
  have hsum : u % 256 + u / 2 ^ 8 % 256 * 2 ^ 8 + u / 2 ^ 16 % 256 * 2 ^ 16
      + u / 2 ^ 24 % 256 * 2 ^ 24 = u := by
    omega
  rw [hsum]
  split_ifs with h
  · have hid : (u : Int) = id := by omega
    exact hid
  · have hid : (u : Int) - 2 ^ 32 = id := by omega
    exact hid

/-- C10, as stated, fails: in the fixture the index key of "nonexistent" is absent, the
store reports `ERR_KEY_NOT_FOUND`, and `getSpaceIdFromName` returns the translation of
that code, `E_KEY_NOT_FOUND`, not `E_SPACE_NOT_FOUND`. -/
theorem getSpaceIdFromName_not_always_space_not_found :
    ((Fixture.executor true).kvstore.get Fixture.logs kDefaultSpaceId kDefaultPartId
      ((Fixture.executor true).utils.indexSpaceKey "nonexistent")).1
      = ResultCode.ERR_KEY_NOT_FOUND ∧
    MetaJobExecutor.getSpaceIdFromName (Fixture.executor true) Fixture.logs "nonexistent"
      = .error ErrorCode.E_KEY_NOT_FOUND ∧
    MetaJobExecutor.getSpaceIdFromName (Fixture.executor true) Fixture.logs "nonexistent"
      ≠ .error ErrorCode.E_SPACE_NOT_FOUND := by
  refine ⟨rfl, rfl, ?_⟩
  intro h
  have h2 : MetaJobExecutor.getSpaceIdFromName (Fixture.executor true) Fixture.logs
      "nonexistent" = .error ErrorCode.E_KEY_NOT_FOUND := rfl
  rw [h2] at h
  injection h with h
  cases h

/-- C10, amended. If the store get of the space-name index key reports a code other than
`SUCCEEDED` (key not found included), `getSpaceIdFromName` returns the translation of that
code and no space id; if the get succeeds with a value of at least four bytes it returns
the integer read from the first four of them, which for a value holding the four bytes
of a 32-bit space id is that id. -/
theorem getSpaceIdFromName_result (X : MetaJobExecutor σ HostAddr) (s : σ)
    (spaceName : String) :
    ((X.kvstore.get s kDefaultSpaceId kDefaultPartId (X.utils.indexSpaceKey spaceName)).1
        ≠ ResultCode.SUCCEEDED →
      MetaJobExecutor.getSpaceIdFromName X s spaceName = .error (X.toCode
        (X.kvstore.get s kDefaultSpaceId kDefaultPartId
          (X.utils.indexSpaceKey spaceName)).1)) ∧
    ((X.kvstore.get s kDefaultSpaceId kDefaultPartId (X.utils.indexSpaceKey spaceName)).1
        = ResultCode.SUCCEEDED →
      (4 ≤ (X.kvstore.get s kDefaultSpaceId kDefaultPartId
          (X.utils.indexSpaceKey spaceName)).2.length →
        MetaJobExecutor.getSpaceIdFromName X s spaceName = .ok (readSpaceId
          (X.kvstore.get s kDefaultSpaceId kDefaultPartId
            (X.utils.indexSpaceKey spaceName)).2)) ∧
      ∀ id : Int, -2 ^ 31 ≤ id → id < 2 ^ 31 →
        (X.kvstore.get s kDefaultSpaceId kDefaultPartId
          (X.utils.indexSpaceKey spaceName)).2 = spaceIdBytes id →
        MetaJobExecutor.getSpaceIdFromName X s spaceName = .ok id) := by
  refine ⟨?_, ?_⟩
  · intro hne
    unfold MetaJobExecutor.getSpaceIdFromName
    simp only [ne_eq, hne, not_false_eq_true, if_true]
  · intro hok
    have hval : MetaJobExecutor.getSpaceIdFromName X s spaceName = .ok (readSpaceId
        (X.kvstore.get s kDefaultSpaceId kDefaultPartId
          (X.utils.indexSpaceKey spaceName)).2) := by
      unfold MetaJobExecutor.getSpaceIdFromName
      simp only [ne_eq, hok, not_true_eq_false, if_false]
    refine ⟨fun _ => hval, ?_⟩
    intro id hlo hhi hbytes
    rw [hval, hbytes]
    have h := readSpaceId_spaceIdBytes id hlo hhi []
    rw [List.append_nil] at h
    rw [h]

/-- C10 amended, on the fixture: the key of "logs" is found with value `[1, 0, 0, 0]` and
the call returns space id 1; the key of "nonexistent" is not found and the call returns
the translation of `ERR_KEY_NOT_FOUND`. -/
theorem getSpaceIdFromName_result_witness :
    (((Fixture.executor true).kvstore.get Fixture.logs kDefaultSpaceId kDefaultPartId
        ((Fixture.executor true).utils.indexSpaceKey "logs")).1 = ResultCode.SUCCEEDED ∧
      ((Fixture.executor true).kvstore.get Fixture.logs kDefaultSpaceId kDefaultPartId
        ((Fixture.executor true).utils.indexSpaceKey "logs")).2 = spaceIdBytes 1 ∧
      MetaJobExecutor.getSpaceIdFromName (Fixture.executor true) Fixture.logs "logs" = .ok 1) ∧
    (((Fixture.executor true).kvstore.get Fixture.logs kDefaultSpaceId kDefaultPartId
        ((Fixture.executor true).utils.indexSpaceKey "nonexistent")).1
        ≠ ResultCode.SUCCEEDED ∧
      MetaJobExecutor.getSpaceIdFromName (Fixture.executor true) Fixture.logs "nonexistent"
        = .error ((Fixture.executor true).toCode ResultCode.ERR_KEY_NOT_FOUND)) :=
  ⟨⟨rfl, by decide,
      ((getSpaceIdFromName_result (Fixture.executor true) Fixture.logs "logs").2 rfl).2 1
        (by decide) (by decide) (by decide)⟩,
    ⟨by decide,
      (getSpaceIdFromName_result (Fixture.executor true) Fixture.logs "nonexistent").1
        (by decide)⟩⟩

end SpaceIdLemmas

section TranslationTheorems

/-- C11. `CommonUtils::to(kvstore::ResultCode)` is a total function; on the 21 store codes
its table names it is injective and never yields `E_UNKNOWN`; every store code outside
that set yields `E_UNKNOWN`. -/
theorem toErrorCode_injective_on_mapped :
    mappedResultCodes.length = 21 ∧ mappedResultCodes.Nodup ∧
    (∀ a ∈ mappedResultCodes, ∀ b ∈ mappedResultCodes,
      CommonUtils.toErrorCode a = CommonUtils.toErrorCode b → a = b) ∧
    (∀ a ∈ mappedResultCodes, CommonUtils.toErrorCode a ≠ ErrorCode.E_UNKNOWN) ∧
    (∀ rc, rc ∉ mappedResultCodes → CommonUtils.toErrorCode rc = ErrorCode.E_UNKNOWN) := by
  refine ⟨rfl, by decide, by decide, by decide, ?_⟩
  intro rc hrc
  cases rc <;> first | rfl | (exact absurd (by decide) hrc)

/-- C11, at instances: `ERR_CHECKPOINT_ERROR` and `ERR_WRITE_BLOCK_ERROR` are both in the
table and translate to different codes, neither of them `E_UNKNOWN`; `ERR_UNKNOWN` and a
code the table does not name translate to `E_UNKNOWN`. -/
theorem toErrorCode_injective_on_mapped_witness :
    CommonUtils.toErrorCode ResultCode.ERR_CHECKPOINT_ERROR
      ≠ CommonUtils.toErrorCode ResultCode.ERR_WRITE_BLOCK_ERROR ∧
    CommonUtils.toErrorCode ResultCode.ERR_WRITE_BLOCK_ERROR ≠ ErrorCode.E_UNKNOWN ∧
    CommonUtils.toErrorCode ResultCode.ERR_UNKNOWN = ErrorCode.E_UNKNOWN ∧
    CommonUtils.toErrorCode (ResultCode.OTHER (-6)) = ErrorCode.E_UNKNOWN :=
  ⟨fun h => absurd
      (toErrorCode_injective_on_mapped.2.2.1 ResultCode.ERR_CHECKPOINT_ERROR (by decide)
        ResultCode.ERR_WRITE_BLOCK_ERROR (by decide) h) (by decide),
    toErrorCode_injective_on_mapped.2.2.2.1 _ (by decide),
    toErrorCode_injective_on_mapped.2.2.2.2 _ (by decide),
    toErrorCode_injective_on_mapped.2.2.2.2 _ (by decide)⟩

/-- C12. `CommonUtils::to(cpp2::ErrorCode)` maps `SUCCEEDED` to `SUCCEEDED`,
`E_LEADER_CHANGED` to `ERR_LEADER_CHANGED` and every other external code to `ERR_UNKNOWN`;
hence translating a store code forth and back gives the code itself for `SUCCEEDED` and
`ERR_LEADER_CHANGED` and `ERR_UNKNOWN` for every other store code. -/
theorem toResultCode_round_trip :
    CommonUtils.toResultCode ErrorCode.SUCCEEDED = ResultCode.SUCCEEDED ∧
    CommonUtils.toResultCode ErrorCode.E_LEADER_CHANGED = ResultCode.ERR_LEADER_CHANGED ∧
    (∀ code, code ≠ ErrorCode.SUCCEEDED → code ≠ ErrorCode.E_LEADER_CHANGED →
      CommonUtils.toResultCode code = ResultCode.ERR_UNKNOWN) ∧
    (∀ rc, rc = ResultCode.SUCCEEDED ∨ rc = ResultCode.ERR_LEADER_CHANGED →
      CommonUtils.toResultCode (CommonUtils.toErrorCode rc) = rc) ∧
    (∀ rc, rc ≠ ResultCode.SUCCEEDED → rc ≠ ResultCode.ERR_LEADER_CHANGED →
      CommonUtils.toResultCode (CommonUtils.toErrorCode rc) = ResultCode.ERR_UNKNOWN) ∧
    ¬ Function.Injective CommonUtils.toErrorCode ∧
    ¬ Function.Surjective CommonUtils.toResultCode := by
  refine ⟨rfl, rfl, ?_, ?_, ?_, ?_, ?_⟩
  · intro code h1 h2
    cases code <;> first | rfl | exact absurd rfl h1 | exact absurd rfl h2
  · rintro rc (rfl | rfl) <;> rfl
  · intro rc h1 h2
    cases rc <;> first | rfl | exact absurd rfl h1 | exact absurd rfl h2
  · intro hinj
    have h : ResultCode.ERR_UNKNOWN = ResultCode.OTHER 0 := hinj rfl
    cases h
  · intro hsur
    rcases hsur ResultCode.ERR_KEY_NOT_FOUND with ⟨code, hcode⟩
    cases code <;> cases hcode

/-- C12, at instances: `ERR_KEY_NOT_FOUND` goes to `E_KEY_NOT_FOUND` and comes back as
`ERR_UNKNOWN`, while `ERR_LEADER_CHANGED` comes back as itself. -/
theorem toResultCode_round_trip_witness :
    CommonUtils.toResultCode ErrorCode.E_KEY_NOT_FOUND = ResultCode.ERR_UNKNOWN ∧
    CommonUtils.toResultCode (CommonUtils.toErrorCode ResultCode.ERR_LEADER_CHANGED)
      = ResultCode.ERR_LEADER_CHANGED ∧
    CommonUtils.toResultCode (CommonUtils.toErrorCode ResultCode.ERR_KEY_NOT_FOUND)
      = ResultCode.ERR_UNKNOWN :=
  ⟨toResultCode_round_trip.2.2.1 _ (by decide) (by decide),
    toResultCode_round_trip.2.2.2.1 _ (Or.inr rfl),
    toResultCode_round_trip.2.2.2.2.1 _ (by decide) (by decide)⟩

end TranslationTheorems

section FactoryTheorems

variable {Store Client : Type}

/-- C13. `createMetaJobExecutor` returns an executor exactly for the commands `COMPACT`,
`FLUSH`, `REBUILD_TAG_INDEX`, `REBUILD_EDGE_INDEX` and `STATS`; the executor is then of the
class matching the command and is constructed from the job id and parameters of the
description and from the given store and client. For every other command the result is
null. -/
theorem createMetaJobExecutor_dispatch (jd : JobDescription) (store : Store)
    (client : Client) :
    ((MetaJobExecutorFactory.createMetaJobExecutor jd store client).isSome = true ↔
      jd.cmd ∈ [AdminCmd.COMPACT, AdminCmd.FLUSH, AdminCmd.REBUILD_TAG_INDEX,
        AdminCmd.REBUILD_EDGE_INDEX, AdminCmd.STATS]) ∧
    (∀ e, MetaJobExecutorFactory.createMetaJobExecutor jd store client = some e →
      (jd.cmd = AdminCmd.COMPACT → e.cls = ExecutorClass.CompactJobExecutor) ∧
      (jd.cmd = AdminCmd.FLUSH → e.cls = ExecutorClass.FlushJobExecutor) ∧
      (jd.cmd = AdminCmd.REBUILD_TAG_INDEX → e.cls = ExecutorClass.RebuildTagJobExecutor) ∧
      (jd.cmd = AdminCmd.REBUILD_EDGE_INDEX → e.cls = ExecutorClass.RebuildEdgeJobExecutor) ∧
      (jd.cmd = AdminCmd.STATS → e.cls = ExecutorClass.StatisJobExecutor) ∧
      e.jobId = jd.jobId ∧ e.paras = jd.paras ∧ e.kvstore = store ∧
      e.adminClient = client) ∧
    (jd.cmd ∉ [AdminCmd.COMPACT, AdminCmd.FLUSH, AdminCmd.REBUILD_TAG_INDEX,
        AdminCmd.REBUILD_EDGE_INDEX, AdminCmd.STATS] →
      MetaJobExecutorFactory.createMetaJobExecutor jd store client = none) := by
  obtain ⟨jobId, cmd, paras⟩ := jd
  cases cmd <;> simp [MetaJobExecutorFactory.createMetaJobExecutor]

/-- C13, at instances: a `STATS` job gives a `StatisJobExecutor` bound to the job id, the
parameters, the store and the client; a command outside the five gives no executor. -/
theorem createMetaJobExecutor_dispatch_witness :
    (∃ e, MetaJobExecutorFactory.createMetaJobExecutor
        { jobId := 7, cmd := AdminCmd.STATS, paras := ["logs"] } "store" "client" = some e ∧
      e.cls = ExecutorClass.StatisJobExecutor ∧ e.jobId = 7 ∧ e.paras = ["logs"] ∧
      e.kvstore = "store" ∧ e.adminClient = "client") ∧
    MetaJobExecutorFactory.createMetaJobExecutor
      { jobId := 7, cmd := AdminCmd.OTHER 99, paras := ["logs"] } "store" "client" = none :=
  ⟨⟨_, rfl,
      ((createMetaJobExecutor_dispatch
        { jobId := 7, cmd := AdminCmd.STATS, paras := ["logs"] } "store" "client").2.1
          _ rfl).2.2.2.2.1 rfl,
      rfl, rfl, rfl, rfl⟩,
    (createMetaJobExecutor_dispatch
      { jobId := 7, cmd := AdminCmd.OTHER 99, paras := ["logs"] } "store" "client").2.2
        (by decide)⟩

end FactoryTheorems

section EmptySpaceTheorems

variable {σ HostAddr : Type} [LinearOrder HostAddr]

theorem getTargetHost_of_no_records (X : MetaJobExecutor σ HostAddr) (s : σ)
    (spaceId : GraphSpaceID)
    (hscan : partScan X s spaceId = (ResultCode.SUCCEEDED, [])) :
    MetaJobExecutor.getTargetHost X s spaceId = .ok [] := by
  have hcode : (partScan X s spaceId).1 = ResultCode.SUCCEEDED := by rw [hscan]
  rw [getTargetHost_eq X s spaceId hcode, hscan]
  rfl

/-- C14. When the partition prefix scan succeeds with no records, `getTargetHost` returns
the empty host list, not an error; a run of `execute` that resolves through
`getTargetHost` over such a scan returns `SUCCEEDED` with no task write and no remote
invocation. -/
theorem execute_over_no_hosts (X : MetaJobExecutor σ HostAddr) (s : σ) :
    (∀ spaceId, partScan X s spaceId = (ResultCode.SUCCEEDED, []) →
      MetaJobExecutor.getTargetHost X s spaceId = .ok []) ∧
    (X.toLeader = false → partScan X s X.space = (ResultCode.SUCCEEDED, []) →
      (MetaJobExecutor.execute X s).code = ErrorCode.SUCCEEDED ∧
      (MetaJobExecutor.execute X s).puts = [] ∧
      (MetaJobExecutor.execute X s).calls = []) := by
  refine ⟨fun spaceId hscan => getTargetHost_of_no_records X s spaceId hscan, ?_⟩
  intro hleader hscan
  have hres : MetaJobExecutor.resolveHosts X s = .ok [] := by
    unfold MetaJobExecutor.resolveHosts
    rw [hleader]
    exact getTargetHost_of_no_records X s X.space hscan
  rw [execute_of_write_ok X s [] hres rfl]
  exact ⟨rfl, rfl, rfl⟩

/-- C14, on the fixture: space 1 without partition records. -/
theorem execute_over_no_hosts_witness :
    partScan (Fixture.executor false) Fixture.emptySpace 1 = (ResultCode.SUCCEEDED, []) ∧
    MetaJobExecutor.getTargetHost (Fixture.executor false) Fixture.emptySpace 1 = .ok [] ∧
    (MetaJobExecutor.execute (Fixture.executor false) Fixture.emptySpace).code
      = ErrorCode.SUCCEEDED ∧
    (MetaJobExecutor.execute (Fixture.executor false) Fixture.emptySpace).puts = [] ∧
    (MetaJobExecutor.execute (Fixture.executor false) Fixture.emptySpace).calls = [] :=
  ⟨rfl,
    (execute_over_no_hosts (Fixture.executor false) Fixture.emptySpace).1 1 rfl,
    (execute_over_no_hosts (Fixture.executor false) Fixture.emptySpace).2 rfl rfl⟩

end EmptySpaceTheorems

section WriteFailureTheorems

variable {σ HostAddr : Type}

variable [LinearOrder HostAddr]

end WriteFailureTheorems

section DeterminismTheorems

variable {σ HostAddr : Type} [LinearOrder HostAddr]

/-- Two strictly ascending lists with the same elements are the same list. -/
theorem eq_of_sorted_lt_of_mem_iff (l₁ l₂ : List HostAddr)
    (h₁ : List.Sorted (· < ·) l₁) (h₂ : List.Sorted (· < ·) l₂)
    (hmem : ∀ h, h ∈ l₁ ↔ h ∈ l₂) : l₁ = l₂ :=
  List.eq_of_perm_of_sorted ((List.perm_ext_iff_of_nodup h₁.nodup h₂.nodup).2 hmem)
    h₁.le_of_lt h₂.le_of_lt

/-- Whatever ascending arrangement `std::sort` produces of a vector of bare hosts, it is
the one `stdSort` computes. -/
theorem sorted_arrangement_unique (l : List HostAddr) (arranged : Hosts HostAddr)
    (hperm : List.Perm arranged (l.map bare))
    (hsorted : List.Sorted (fun a b => pairLt b a = false) arranged) :
    arranged = stdSort (l.map bare) := by
  have hbare : arranged = (arranged.map Prod.fst).map bare := by
    rw [List.map_map]
    symm
    calc arranged.map (bare ∘ Prod.fst) = arranged.map id := by
          apply List.map_congr_left
          intro e he
          rcases List.mem_map.1 (hperm.mem_iff.1 he) with ⟨h, _, rfl⟩
          rfl
      _ = arranged := List.map_id _
  have hperm' : List.Perm (arranged.map Prod.fst) l := by
    have := hperm.map Prod.fst
    rwa [map_fst_map_bare] at this
  have hsorted' : List.Sorted (· ≤ ·) (arranged.map Prod.fst) := by
    rw [hbare] at hsorted
    have := List.pairwise_map.1 hsorted
    refine this.imp ?_
    intro a b hab
    simpa [pairLt, bare, vecLt] using hab
  have hkeys : arranged.map Prod.fst = List.insertionSort (· ≤ ·) l :=
    List.eq_of_perm_of_sorted (hperm'.trans (List.perm_insertionSort (· ≤ ·) l).symm)
      hsorted' (List.sorted_insertionSort (· ≤ ·) l)
  rw [hbare, hkeys, stdSort_bare]

/-- C16. Resolution is a function of the scan result alone: two calls of `getTargetHost`
whose partition scans agree return the same result, two calls of `getLeaderHost` whose
leader scans agree return the same result, and so do two runs of the resolver selection;
when both succeed the host lists are equal with equal positions. For `getTargetHost` the
result is moreover the same for every ascending arrangement `std::sort` may produce. -/
theorem resolution_deterministic (X : MetaJobExecutor σ HostAddr) (s₁ s₂ : σ)
    (space : GraphSpaceID) :
    (partScan X s₁ space = partScan X s₂ space →
      MetaJobExecutor.getTargetHost X s₁ space = MetaJobExecutor.getTargetHost X s₂ space) ∧
    (leaderScan X s₁ space = leaderScan X s₂ space →
      MetaJobExecutor.getLeaderHost X s₁ space = MetaJobExecutor.getLeaderHost X s₂ space) ∧
    (partScan X s₁ X.space = partScan X s₂ X.space →
      leaderScan X s₁ X.space = leaderScan X s₂ X.space →
      MetaJobExecutor.resolveHosts X s₁ = MetaJobExecutor.resolveHosts X s₂ ∧
      ∀ hs₁ hs₂, MetaJobExecutor.resolveHosts X s₁ = .ok hs₁ →
        MetaJobExecutor.resolveHosts X s₂ = .ok hs₂ →
        hs₁ = hs₂ ∧ hs₁.enum.map (fun ka => (ka.1, ka.2.1))
          = hs₂.enum.map (fun ka => (ka.1, ka.2.1))) ∧
    (∀ arranged : Hosts HostAddr, (partScan X s₁ space).1 = ResultCode.SUCCEEDED →
      List.Perm arranged (MetaJobExecutor.collectTargets X.utils (partScan X s₁ space).2) →
      List.Sorted (fun a b => pairLt b a = false) arranged →
      MetaJobExecutor.getTargetHost X s₁ space = .ok (stdUnique arranged)) := by
  have htarget : ∀ sp, partScan X s₁ sp = partScan X s₂ sp →
      MetaJobExecutor.getTargetHost X s₁ sp = MetaJobExecutor.getTargetHost X s₂ sp := by
    intro sp h
    unfold partScan at h
    unfold MetaJobExecutor.getTargetHost
    simp only [h]
  have hleader : ∀ sp, leaderScan X s₁ sp = leaderScan X s₂ sp →
      MetaJobExecutor.getLeaderHost X s₁ sp = MetaJobExecutor.getLeaderHost X s₂ sp := by
    intro sp h
    unfold leaderScan at h
    unfold MetaJobExecutor.getLeaderHost
    simp only [h]
  refine ⟨htarget space, hleader space, ?_, ?_⟩
  · intro hp hl
    have hres : MetaJobExecutor.resolveHosts X s₁ = MetaJobExecutor.resolveHosts X s₂ := by
      unfold MetaJobExecutor.resolveHosts
      rw [htarget X.space hp, hleader X.space hl]
    refine ⟨hres, ?_⟩
    intro hs₁ hs₂ h₁ h₂
    rw [hres, h₂] at h₁
    injection h₁ with h₁
    subst h₁
    exact ⟨rfl, rfl⟩
  · intro arranged hscan hperm hsorted
    rw [collectTargets_eq] at hperm
    have harr := sorted_arrangement_unique _ arranged hperm hsorted
    rw [getTargetHost_eq X s₁ space hscan, harr, stdSort_bare,
      stdUnique_map bare bare_injective]

/-- C16, on the fixture: the world in which one invocation will fail has the same scans as
`logs`; both resolvers return the same lists in both worlds. -/
theorem resolution_deterministic_witness :
    partScan (Fixture.executor true) Fixture.logs 1
      = partScan (Fixture.executor true) Fixture.logsOneFailing 1 ∧
    leaderScan (Fixture.executor true) Fixture.logs 1
      = leaderScan (Fixture.executor true) Fixture.logsOneFailing 1 ∧
    MetaJobExecutor.getTargetHost (Fixture.executor true) Fixture.logs 1
      = MetaJobExecutor.getTargetHost (Fixture.executor true) Fixture.logsOneFailing 1 ∧
    MetaJobExecutor.getLeaderHost (Fixture.executor true) Fixture.logs 1
      = MetaJobExecutor.getLeaderHost (Fixture.executor true) Fixture.logsOneFailing 1 ∧
    MetaJobExecutor.resolveHosts (Fixture.executor true) Fixture.logs
      = MetaJobExecutor.resolveHosts (Fixture.executor true) Fixture.logsOneFailing :=
  ⟨rfl, rfl,
    (resolution_deterministic (Fixture.executor true) Fixture.logs Fixture.logsOneFailing
      1).1 rfl,
    (resolution_deterministic (Fixture.executor true) Fixture.logs Fixture.logsOneFailing
      1).2.1 rfl,
    ((resolution_deterministic (Fixture.executor true) Fixture.logs Fixture.logsOneFailing
      1).2.2.1 rfl rfl).1⟩

/-- C20. `getTargetHost` depends only on the set of hosts in the scan: two successful
scans whose records name the same hosts, in whatever order and multiplicity, give the
same ordered list, hence the same position for every host. -/
theorem getTargetHost_depends_on_host_set (X₁ X₂ : MetaJobExecutor σ HostAddr) (s₁ s₂ : σ)
    (space₁ space₂ : GraphSpaceID)
    (h₁ : (partScan X₁ s₁ space₁).1 = ResultCode.SUCCEEDED)
    (h₂ : (partScan X₂ s₂ space₂).1 = ResultCode.SUCCEEDED)
    (hset : ∀ h, h ∈ scannedHosts X₁.utils (partScan X₁ s₁ space₁).2 ↔
      h ∈ scannedHosts X₂.utils (partScan X₂ s₂ space₂).2) :
    MetaJobExecutor.getTargetHost X₁ s₁ space₁ = MetaJobExecutor.getTargetHost X₂ s₂ space₂ := by
  rw [getTargetHost_eq X₁ s₁ space₁ h₁, getTargetHost_eq X₂ s₂ space₂ h₂]
  congr 2
  apply eq_of_sorted_lt_of_mem_iff
  · exact sorted_lt_stdUnique _ (List.sorted_insertionSort (· ≤ ·) _)
  · exact sorted_lt_stdUnique _ (List.sorted_insertionSort (· ≤ ·) _)
  · intro h
    rw [mem_stdUnique, mem_stdUnique, List.mem_insertionSort, List.mem_insertionSort]
    exact hset h

/-- C20, on the fixture: `logs` and `logsRearranged` name the hosts 10, 20, 30 in different
records, orders and multiplicities, and resolve to the same list. -/
theorem getTargetHost_depends_on_host_set_witness :
    scannedHosts (Fixture.executor false).utils
      (partScan (Fixture.executor false) Fixture.logs 1).2
      = [30, 10, 20, 20, 30, 10, 10, 20, 30, 30, 30] ∧
    scannedHosts (Fixture.executor false).utils
      (partScan (Fixture.executor false) Fixture.logsRearranged 1).2 = [30, 20, 20, 10] ∧
    MetaJobExecutor.getTargetHost (Fixture.executor false) Fixture.logs 1
      = MetaJobExecutor.getTargetHost (Fixture.executor false) Fixture.logsRearranged 1 :=
  ⟨rfl, rfl,
    getTargetHost_depends_on_host_set (Fixture.executor false) (Fixture.executor false)
      Fixture.logs Fixture.logsRearranged 1 1 rfl rfl (by
        intro h
        have e₁ : scannedHosts (Fixture.executor false).utils
            (partScan (Fixture.executor false) Fixture.logs 1).2
            = [30, 10, 20, 20, 30, 10, 10, 20, 30, 30, 30] := rfl
        have e₂ : scannedHosts (Fixture.executor false).utils
            (partScan (Fixture.executor false) Fixture.logsRearranged 1).2
            = [30, 20, 20, 10] := rfl
        rw [e₁, e₂]
        simp only [List.mem_cons, List.mem_singleton, List.not_mem_nil, or_false]
        tauto)⟩

end DeterminismTheorems

section DispatchTheorems

variable {σ HostAddr : Type} [LinearOrder HostAddr]

/-- The entries of a successful `getTargetHost` call carry the empty partition vector. -/
theorem getTargetHost_parts_nil (X : MetaJobExecutor σ HostAddr) (s : σ)
    (spaceId : GraphSpaceID) (hs : Hosts HostAddr)
    (hok : MetaJobExecutor.getTargetHost X s spaceId = .ok hs) :
    ∀ a ∈ hs, a.2 = [] := by
  by_cases hscan : (partScan X s spaceId).1 = ResultCode.SUCCEEDED
  · rw [getTargetHost_eq X s spaceId hscan] at hok
    injection hok with hok
    subst hok
    intro a ha
    rcases List.mem_map.1 ha with ⟨h, _, rfl⟩
    rfl
  · rw [getTargetHost_error X s spaceId hscan] at hok
    cases hok

/-- The entries of a successful `getLeaderHost` call carry the partitions of the records
that decode with `SUCCEEDED` and name the entry's host as leader, in scan order. -/
theorem getLeaderHost_parts_led (X : MetaJobExecutor σ HostAddr) (s : σ)
    (space : GraphSpaceID) (hs : Hosts HostAddr)
    (hok : MetaJobExecutor.getLeaderHost X s space = .ok hs) :
    ∀ a ∈ hs, a.2 = ((leaderScan X s space).2.filter (fun kv =>
      leaderCode X.utils kv = ErrorCode.SUCCEEDED ∧ leaderOf X.utils kv = a.1)).map
        (leaderPart X.utils) := by
  by_cases hscan : (leaderScan X s space).1 = ResultCode.SUCCEEDED
  · rw [getLeaderHost_eq X s space hscan] at hok
    injection hok with hok
    subst hok
    intro a ha
    rcases List.mem_map.1 ha with ⟨h, _, rfl⟩
    exact partsLedBy_ledParts X.utils _ h
  · rw [getLeaderHost_error X s space hscan] at hok
    cases hok

/-- C17. In a run of `execute` that reaches dispatch with the resolved list `hs`, the k-th
remote invocation is `executeInternal(getAdminAddrFromStoreAddr(hs[k].host), hs[k].parts)`:
it goes to the admin address of the k-th host and carries that host's own partition list,
which is empty in the target-host view and the partitions the host leads in the leader
view. These are the arguments `executeInternal` receives: the outcomes of the run and the
world it leaves are those of `executeInternal` applied, one host after another from the
world the task writes left, to exactly these addresses and partition lists. -/
theorem execute_invocation_arguments (X : MetaJobExecutor σ HostAddr) (s : σ)
    (hs : Hosts HostAddr) (hres : MetaJobExecutor.resolveHosts X s = .ok hs)
    (hputs : ∀ put ∈ (MetaJobExecutor.execute X s).puts, put.rc = ResultCode.SUCCEEDED) :
    (∀ (k : Nat) (a : HostAddr × List PartitionID), hs[k]? = some a →
      ∃ c : Invocation HostAddr, (MetaJobExecutor.execute X s).calls[k]? = some c ∧
        c.address = X.getAdminAddrFromStoreAddr a.1 ∧ c.parts = a.2) ∧
    (X.toLeader = false → ∀ a ∈ hs, a.2 = []) ∧
    (X.toLeader = true → ∀ a ∈ hs, a.2 = ((leaderScan X s X.space).2.filter (fun kv =>
      leaderCode X.utils kv = ErrorCode.SUCCEEDED ∧ leaderOf X.utils kv = a.1)).map
        (leaderPart X.utils)) ∧
    (MetaJobExecutor.execute X s).calls.map (fun c => c.outcome) =
      (issueCalls X
        (issuePuts X s ((hs.enumFrom 0).map
          (fun ka => taskBatch X (ka.1 % 2 ^ 32) ka.2.1))).2
        (hs.map (fun a => (X.getAdminAddrFromStoreAddr a.1, a.2)))).1 ∧
    (MetaJobExecutor.execute X s).world =
      (issueCalls X
        (issuePuts X s ((hs.enumFrom 0).map
          (fun ka => taskBatch X (ka.1 % 2 ^ 32) ka.2.1))).2
        (hs.map (fun a => (X.getAdminAddrFromStoreAddr a.1, a.2)))).2 := by
  have hw := writeTasks_ok_of_puts X s hs hres hputs
  have hissue : issuePuts X s ((hs.enumFrom 0).map
      (fun ka => taskBatch X (ka.1 % 2 ^ 32) ka.2.1)) =
      (hs.map (fun _ => ResultCode.SUCCEEDED), (MetaJobExecutor.writeTasks X 0 hs s).2.2) := by
    apply writeTasks_issuePuts
    rw [← execute_puts X s hs hres]
    exact hputs
  refine ⟨?_, ?_, ?_, ?_, ?_⟩
  · intro k a hk
    rw [execute_of_write_ok X s hs hres hw]
    have hcalls := dispatch_calls X hs (MetaJobExecutor.writeTasks X 0 hs s).2.2
    have hkth := congrArg (fun l => l[k]?) hcalls
    simp only [List.getElem?_map, hk, Option.map_some'] at hkth
    cases hc : (MetaJobExecutor.dispatch X hs (MetaJobExecutor.writeTasks X 0 hs s).2.2).1[k]? with
    | none =>
      rw [hc] at hkth
      cases hkth
    | some c =>
      rw [hc] at hkth
      simp only [Option.map_some', Option.some.injEq, Prod.mk.injEq] at hkth
      exact ⟨c, rfl, hkth.1, hkth.2⟩
  · intro hleader
    unfold MetaJobExecutor.resolveHosts at hres
    rw [hleader] at hres
    exact getTargetHost_parts_nil X s X.space hs hres
  · intro hleader
    unfold MetaJobExecutor.resolveHosts at hres
    rw [hleader] at hres
    exact getLeaderHost_parts_led X s X.space hs hres
  · rw [hissue, execute_of_write_ok X s hs hres hw]
    exact (dispatch_issueCalls X hs _).1
  · rw [hissue, execute_of_write_ok X s hs hres hw]
    exact (dispatch_issueCalls X hs _).2

/-- C17, on the fixture, leader view, with the second invocation failing: the remote side
has received, in order, admin address 110 with part 1, 120 with part 2 and 130 with parts
3, 4, 5, has used up its three scripted outcomes, and the invocation at index 2 is the one
for host 30. -/
theorem execute_invocation_arguments_witness :
    MetaJobExecutor.resolveHosts (Fixture.executor true) Fixture.logsOneFailing
      = .ok [(10, [1]), (20, [2]), (30, [3, 4, 5])] ∧
    (MetaJobExecutor.execute (Fixture.executor true) Fixture.logsOneFailing).world.received
      = [(110, [1]), (120, [2]), (130, [3, 4, 5])] ∧
    (MetaJobExecutor.execute (Fixture.executor true) Fixture.logsOneFailing).world.outcomes
      = [] ∧
    (MetaJobExecutor.execute (Fixture.executor true) Fixture.logsOneFailing).calls.map
      (fun c => c.outcome)
      = [Try.value Status.OK, Try.value (Status.Error "failed"), Try.value Status.OK] ∧
    (∃ c, (MetaJobExecutor.execute (Fixture.executor true) Fixture.logsOneFailing).calls[2]?
        = some c ∧
      c.address = (Fixture.executor true).getAdminAddrFromStoreAddr 30 ∧
      c.parts = [3, 4, 5]) ∧
    (MetaJobExecutor.execute (Fixture.executor true) Fixture.logsOneFailing).calls.map
      (fun c => c.outcome) =
      (issueCalls (Fixture.executor true)
        (issuePuts (Fixture.executor true) Fixture.logsOneFailing
          (([(10, [1]), (20, [2]), (30, [3, 4, 5])].enumFrom 0).map
            (fun ka => taskBatch (Fixture.executor true) (ka.1 % 2 ^ 32) ka.2.1))).2
        ([(10, [1]), (20, [2]), (30, [3, 4, 5])].map
          (fun a => ((Fixture.executor true).getAdminAddrFromStoreAddr a.1, a.2)))).1 :=
  ⟨rfl, rfl, rfl, rfl,
    (execute_invocation_arguments (Fixture.executor true) Fixture.logsOneFailing _ rfl
      (by decide)).1 2 (30, [3, 4, 5]) rfl,
    (execute_invocation_arguments (Fixture.executor true) Fixture.logsOneFailing _ rfl
      (by decide)).2.2.2.1⟩

end DispatchTheorems

section TtlTheorems

/-- A sum within the 64-bit signed range is not changed by wrap-around. -/
theorem wrapInt64_of_in_range (x : Int) (hlo : -2 ^ 63 ≤ x) (hhi : x < 2 ^ 63) :
    wrapInt64 x = x := by
  unfold wrapInt64
  omega

/-- The TTL check in closed form, with the current time `now` as an input:
`checkDataExpiredForTTL` returns true if and only if the field type of the TTL column is
`TIMESTAMP` or `INT64`, the value is an integer `n`, and `now` exceeds the 64-bit signed
sum of `n` and `d`; that sum is `n + d` whenever `n + d` fits 64 bits. A value that is not
an integer (such as NULL) never expires, and a value at which `now` equals the sum is not
expired. -/
theorem checkDataExpiredForTTL_iff (schema : NebulaSchemaProvider) (now : Int) (v : Value)
    (ttlCol : String) (d : Int) :
    (CommonUtils.checkDataExpiredForTTL schema now v ttlCol d = true ↔
      (schema.getFieldType ttlCol = PropertyType.TIMESTAMP ∨
        schema.getFieldType ttlCol = PropertyType.INT64) ∧
      ∃ n, v = Value.int n ∧ now > wrapInt64 (n + d)) ∧
    (∀ n : Int, v = Value.int n → -2 ^ 63 ≤ n + d → n + d < 2 ^ 63 →
      (CommonUtils.checkDataExpiredForTTL schema now v ttlCol d = true ↔
        (schema.getFieldType ttlCol = PropertyType.TIMESTAMP ∨
          schema.getFieldType ttlCol = PropertyType.INT64) ∧ now > n + d)) ∧
    (v.isInt = false → CommonUtils.checkDataExpiredForTTL schema now v ttlCol d = false) ∧
    (∀ n : Int, v = Value.int n → now = wrapInt64 (n + d) →
      CommonUtils.checkDataExpiredForTTL schema now v ttlCol d = false) := by
  have hmain : CommonUtils.checkDataExpiredForTTL schema now v ttlCol d = true ↔
      (schema.getFieldType ttlCol = PropertyType.TIMESTAMP ∨
        schema.getFieldType ttlCol = PropertyType.INT64) ∧
      ∃ n, v = Value.int n ∧ now > wrapInt64 (n + d) := by
    unfold CommonUtils.checkDataExpiredForTTL
    by_cases h1 : schema.getFieldType ttlCol = PropertyType.TIMESTAMP
    · cases v <;> simp [h1, Value.isInt, Value.getInt]
    · by_cases h2 : schema.getFieldType ttlCol = PropertyType.INT64
      · cases v <;> simp [h2, Value.isInt, Value.getInt]
      · simp [h1, h2]
  refine ⟨hmain, ?_, ?_, ?_⟩
  · intro n hv hlo hhi
    have hw := wrapInt64_of_in_range (n + d) hlo hhi
    rw [hmain, hv]
    constructor
    · rintro ⟨hf, m, hm, hgt⟩
      injection hm with hm
      subst hm
      rw [hw] at hgt
      exact ⟨hf, hgt⟩
    · rintro ⟨hf, hgt⟩
      exact ⟨hf, n, rfl, by rw [hw]; exact hgt⟩
  · intro hint
    cases hc : CommonUtils.checkDataExpiredForTTL schema now v ttlCol d with
    | false => rfl
    | true =>
      obtain ⟨_, n, hn, _⟩ := hmain.1 hc
      rw [hn] at hint
      cases hint
  · intro n hv hnow
    cases hc : CommonUtils.checkDataExpiredForTTL schema now v ttlCol d with
    | false => rfl
    | true =>
      obtain ⟨_, m, hm, hgt⟩ := hmain.1 hc
      rw [hv] at hm
      injection hm with hm
      subst hm
      rw [hnow] at hgt
      exact absurd hgt (lt_irrefl _)

/-- The TTL check at instances without overflow: on a `TIMESTAMP` column with duration 100
the value 1000 is expired at time 1101 and not at time 1100; a null value is not
expired. -/
theorem checkDataExpiredForTTL_iff_witness :
    CommonUtils.checkDataExpiredForTTL Fixture.ttlSchema 1101 (Value.int 1000) "ts" 100
      = true ∧
    CommonUtils.checkDataExpiredForTTL Fixture.ttlSchema 1100 (Value.int 1000) "ts" 100
      = false ∧
    CommonUtils.checkDataExpiredForTTL Fixture.ttlSchema 1101 Value.null "ts" 100 = false :=
  ⟨((checkDataExpiredForTTL_iff Fixture.ttlSchema 1101 (Value.int 1000) "ts" 100).2.1
      1000 rfl (by decide) (by decide)).2 ⟨Or.inl rfl, by decide⟩,
    (checkDataExpiredForTTL_iff Fixture.ttlSchema 1100 (Value.int 1000) "ts" 100).2.2.2
      1000 rfl (by decide),
    (checkDataExpiredForTTL_iff Fixture.ttlSchema 1101 Value.null "ts" 100).2.2.1 rfl⟩

/-- C18. The sum `v.getInt() + ttlDuration` is taken in 64 bits without a guard: for a
`TIMESTAMP` column holding the largest 64-bit value the sum with a positive duration wraps
to a negative number, and `checkDataExpiredForTTL` returns true although `now > v + d` does
not hold, both at time 0 with duration 1 and at a present-day clock with a one-day
duration. -/
theorem checkDataExpiredForTTL_overflow :
    CommonUtils.checkDataExpiredForTTL Fixture.ttlSchema 0
      (Value.int 9223372036854775807) "ts" 1 = true ∧
    ¬ ((0 : Int) > 9223372036854775807 + 1) ∧
    CommonUtils.checkDataExpiredForTTL Fixture.ttlSchema 1793000000
      (Value.int 9223372036854775807) "ts" 86400 = true ∧
    ¬ ((1793000000 : Int) > 9223372036854775807 + 86400) := by
  decide

/-- C19. `ttlProps` returns `(enabled, (duration, col))` where `duration` is the schema's
`ttl_duration`, or 0 when unset, `col` is the schema's `ttl_col`, or the empty string when
unset, and `enabled` holds exactly when `duration > 0` and `col` is not empty. `ttlValue`
returns an error status exactly when `enabled` is false, and otherwise the reader's value
of column `col`. -/
theorem ttlProps_ttlValue (schema : NebulaSchemaProvider) (reader : RowReader) :
    (CommonUtils.ttlProps schema).2.1 = schema.getProp.ttl_duration.getD 0 ∧
    (CommonUtils.ttlProps schema).2.2 = schema.getProp.ttl_col.getD "" ∧
    ((CommonUtils.ttlProps schema).1 = true ↔
      (CommonUtils.ttlProps schema).2.1 > 0 ∧ (CommonUtils.ttlProps schema).2.2 ≠ "") ∧
    ((∃ st, CommonUtils.ttlValue schema reader = .error st) ↔
      (CommonUtils.ttlProps schema).1 = false) ∧
    ((CommonUtils.ttlProps schema).1 = true →
      CommonUtils.ttlValue schema reader
        = .ok (reader.getValueByName (CommonUtils.ttlProps schema).2.2)) := by
  have herr : (∃ st, CommonUtils.ttlValue schema reader = .error st) ↔
      (CommonUtils.ttlProps schema).1 = false := by
    unfold CommonUtils.ttlValue
    cases h : (CommonUtils.ttlProps schema).1 <;> simp [h]
  have hval : (CommonUtils.ttlProps schema).1 = true →
      CommonUtils.ttlValue schema reader
        = .ok (reader.getValueByName (CommonUtils.ttlProps schema).2.2) := by
    intro h
    unfold CommonUtils.ttlValue
    simp [h]
  refine ⟨?_, ?_, ?_, herr, hval⟩
  · obtain ⟨ft, ⟨dur, col⟩⟩ := schema
    cases dur <;> rfl
  · obtain ⟨ft, ⟨dur, col⟩⟩ := schema
    cases col <;> rfl
  · obtain ⟨ft, ⟨dur, col⟩⟩ := schema
    have hempty : ∀ c : String, c.isEmpty = false ↔ ¬ c = "" := by
      intro c
      rw [← String.isEmpty_iff, Bool.not_eq_true]
    cases dur <;> cases col <;>
      simp [CommonUtils.ttlProps, String.isEmpty_iff, hempty]

/-- C19, at instances: a schema with a TTL of 100 on "ts" is enabled and `ttlValue` reads
column "ts"; a schema without TTL properties is not enabled and `ttlValue` is an error. -/
theorem ttlProps_ttlValue_witness :
    CommonUtils.ttlProps Fixture.ttlSchema = (true, (100, "ts")) ∧
    CommonUtils.ttlValue Fixture.ttlSchema Fixture.row = .ok (Value.int 1000) ∧
    CommonUtils.ttlProps Fixture.plainSchema = (false, (0, "")) ∧
    (∃ st, CommonUtils.ttlValue Fixture.plainSchema Fixture.row = .error st) :=
  ⟨rfl,
    (ttlProps_ttlValue Fixture.ttlSchema Fixture.row).2.2.2.2 rfl,
    rfl,
    (ttlProps_ttlValue Fixture.plainSchema Fixture.row).2.2.2.1.2 rfl⟩

end TtlTheorems

end Nebula
